import Mathlib

/-!
Verification development for the Tableau-to-DAX expression converter
(`src/converter/tableau_to_dax.py`).

The converter is a pipeline over strings:
  1. `preprocess_lod`  — level-of-detail (LOD) rewriting driven by regexes;
  2. `tokenize`        — regex tokenizer;
  3. `Parser`          — recursive-descent parser for IF / CASE constructs;
  4. normalizer        — regex substitutions (field qualification, function
                         renames, AND/OR, whitespace collapse).

Everything below is a shallow embedding of that Python module.  Python
exceptions are modelled with `Except PyError`; `str` is modelled by `String`
(the relevant character classes `\w`, `\s`, `upper()` are modelled on their
ASCII behaviour, which is exact for the byte strings the module manipulates).
Regular expressions are modelled by a small backtracking engine (`RE`,
`mfirst`) whose alternative ordering reproduces Python `re`'s leftmost /
first-alternative / greedy-vs-lazy priorities, and the tokenizer and
`re.sub`-based rewrites are modelled by direct character scanners that
reproduce the corresponding deterministic regexes.
-/

namespace TableauToDax

/-- Model of the Python exceptions the module can raise: `ValueError msg`, and
the `AttributeError` produced by calling `.upper()` on `None`. -/
inductive PyError where
  | valueError (msg : String)
  | attributeError (msg : String)
deriving Repr, DecidableEq

/-- Python `\s` / `str.strip()` whitespace (ASCII fragment). -/
def pySpaceChar (c : Char) : Bool :=
  c = ' ' || c = '\t' || c = '\n' || c = '\r' || c = '\x0b' || c = '\x0c'

/-- Python `\w` word characters (ASCII fragment). -/
def pyWordChar (c : Char) : Bool := c.isAlphanum || c = '_'

/-- Python `str.strip()` on a character list. -/
def pyStripL (s : List Char) : List Char :=
  ((s.dropWhile pySpaceChar).reverse.dropWhile pySpaceChar).reverse

/-- Python `str.strip()`. -/
def pyStrip (s : String) : String := ⟨pyStripL s.data⟩

/-- Python `str.upper()` (ASCII fragment), as a kernel-computable map over
the character list (extensionally `String.toUpper`). -/
def pyUpper (s : String) : String := ⟨s.data.map Char.toUpper⟩

/-- Python `sep.join(parts)`, as a kernel-computable recursion
(extensionally `String.intercalate`). -/
def joinSep (sep : String) : List String → String
  | [] => ""
  | [x] => x
  | x :: xs => x ++ sep ++ joinSep sep xs

/-- Python `s.split(",")` on character lists (every comma splits; empty
pieces are kept). -/
def splitCommasL : List Char → List (List Char)
  | [] => [[]]
  | c :: rest =>
    let r := splitCommasL rest
    if c = ',' then [] :: r
    else
      match r with
      | [] => [[c]]
      | h :: t => (c :: h) :: t

/-- Python `s.split(",")`. -/
def splitCommas (s : String) : List String := (splitCommasL s.data).map (⟨·⟩)

/-- Case-sensitive "begins with" on character lists. -/
def beginsWith : List Char → List Char → Bool
  | [], _ => true
  | _ :: _, [] => false
  | c :: cs, x :: xs => c = x && beginsWith cs xs

/-- The apostrophe character (spelled via its code point). -/
def aposChar : Char := Char.ofNat 39

/-- Line 273: `tableau_expr.replace("'", '"')`. -/
def pyReplaceQuotes (s : String) : String :=
  ⟨s.data.map (fun c => if c = aposChar then '"' else c)⟩

/-! ## A small backtracking regex engine

Just enough of Python `re` for the four structural patterns of the module
(`cond_pattern`, `simple_pattern`, the LOD pattern of `preprocess_lod`, and
`(\w+)\((.*)\)`).  Literals are matched case-insensitively (all four patterns
are compiled with `re.IGNORECASE`; none of their metacharacters are letters,
so this is exact).  `dollar` models `$` without `re.MULTILINE`: end of string
or just before a final newline.  Alternation is ordered, `starG`/`starL` are
greedy/lazy `*` over a single-character class, and the continuation-passing
matcher `mfirst` returns the first success in exactly Python's backtracking
priority order. -/

/-- Capture groups: group index paired with the captured text.  The most
recent binding for a group is first. -/
abbrev Caps := List (Nat × String)

/-- Regex abstract syntax (the fragment used by the module's patterns). -/
inductive RE where
  | eps
  | dollar
  | lit (cs : List Char)
  | one (p : Char → Bool)
  | starG (p : Char → Bool)
  | starL (p : Char → Bool)
  | seq (a b : RE)
  | alt (a b : RE)
  | group (i : Nat) (r : RE)

/-- Case-insensitive character comparison (ASCII). -/
def ciEqChar (a b : Char) : Bool := a.toUpper = b.toUpper

/-- Strip a case-insensitive literal from the front of the input. -/
def ciStrip : List Char → List Char → Option (List Char)
  | [], s => some s
  | _ :: _, [] => none
  | c :: cs, x :: xs => if ciEqChar c x then ciStrip cs xs else none

/-- Whether `pat` is a case-insensitive prefix of `s`. -/
def ciStartsWith (pat s : List Char) : Bool := (ciStrip pat s).isSome

/-- First success over a list of candidate repetition counts. -/
def firstSome {α : Type} : List Nat → (Nat → Option α) → Option α
  | [], _ => none
  | n :: ns, f => f n <|> firstSome ns f

/-- Length of the maximal prefix satisfying `p`. -/
def countWhile (p : Char → Bool) (s : List Char) : Nat := (s.takeWhile p).length

/-- The backtracking matcher: try `re` at the front of `s` and call the
continuation `k` on each way of matching, in Python's priority order,
returning the first overall success. -/
def mfirst {α : Type} : RE → List Char → Caps → (List Char → Caps → Option α) → Option α
  | .eps, s, caps, k => k s caps
  | .dollar, s, caps, k => if s = [] || s = ['\n'] then k s caps else none
  | .lit cs, s, caps, k =>
    match ciStrip cs s with
    | some s2 => k s2 caps
    | none => none
  | .one p, s, caps, k =>
    match s with
    | [] => none
    | c :: s2 => if p c then k s2 caps else none
  | .starG p, s, caps, k =>
    firstSome (List.range (countWhile p s + 1)).reverse (fun j => k (s.drop j) caps)
  | .starL p, s, caps, k =>
    firstSome (List.range (countWhile p s + 1)) (fun j => k (s.drop j) caps)
  | .seq a b, s, caps, k => mfirst a s caps (fun s2 c2 => mfirst b s2 c2 k)
  | .alt a b, s, caps, k => mfirst a s caps k <|> mfirst b s caps k
  | .group i r, s, caps, k =>
    mfirst r s caps (fun s2 c2 => k s2 ((i, ⟨s.take (s.length - s2.length)⟩) :: c2))

/-- Look up a capture group (most recent binding). -/
def capGet (caps : Caps) (i : Nat) : Option String :=
  (caps.find? (fun p => p.1 = i)).map (·.2)

/-- Anchored match at the start of the input (Python `re.match`). -/
def mmatch (re : RE) (s : List Char) : Option Caps :=
  mfirst re s [] (fun _ c => some c)

/-- Leftmost search (Python `re.search`). -/
def msearch (re : RE) : List Char → Option Caps
  | [] => mmatch re []
  | c :: rest =>
    match mmatch re (c :: rest) with
    | some caps => some caps
    | none => msearch re rest

/-- Sequence a list of regexes. -/
def seqs : List RE → RE
  | [] => .eps
  | [r] => r
  | r :: rs => .seq r (seqs rs)

/-- Ordered alternation of a list of regexes. -/
def alts : List RE → RE
  | [] => .eps
  | [r] => r
  | r :: rs => .alt r (alts rs)

/-- A literal given as a string. -/
def litS (s : String) : RE := .lit s.data

/-- `.` under `re.DOTALL` (matches anything). -/
def anyChar : Char → Bool := fun _ => true

/-- `.` without `re.DOTALL` (anything but a newline). -/
def anyNotNl : Char → Bool := fun c => c != '\n'

/-- Greedy `+` over a character class. -/
def plusRE (p : Char → Bool) : RE := .seq (.one p) (.starG p)

/-- `\s+`. -/
def wsPlus : RE := plusRE pySpaceChar

/-- `\s*`. -/
def wsStar : RE := .starG pySpaceChar

/-- The aggregation-name alternation `SUM|COUNT|AVG|MIN|MAX|COUNTD`
(source order; `COUNT` before `COUNTD`, resolved by backtracking exactly
as in Python). -/
def aggAlts : RE :=
  alts [litS "SUM", litS "COUNT", litS "AVG", litS "MIN", litS "MAX", litS "COUNTD"]

/-- Lines 140-149: `cond_pattern`, i.e.
`(?P<agg>SUM|COUNT|AVG|MIN|MAX|COUNTD)\s*\(\s*IF\s+(?P<cond>.*?)\s+THEN\s+(?P<val>.*?)\s+END\s*\)`
with IGNORECASE and DOTALL (group 1 = agg, 2 = cond, 3 = val). -/
def cond_pattern : RE :=
  seqs [.group 1 aggAlts, wsStar, litS "(", wsStar, litS "IF", wsPlus,
        .group 2 (.starL anyChar), wsPlus, litS "THEN", wsPlus,
        .group 3 (.starL anyChar), wsPlus, litS "END", wsStar, litS ")"]

/-- Lines 158-165: `simple_pattern`, i.e.
`(?P<agg>SUM|COUNT|AVG|MIN|MAX|COUNTD)\s*\((?P<val>.*?)\)` with IGNORECASE
and DOTALL (group 1 = agg, 2 = val). -/
def simple_pattern : RE :=
  seqs [.group 1 aggAlts, wsStar, litS "(", .group 2 (.starL anyChar), litS ")"]

/-- Lines 183-187: the LOD pattern
`\{\s*(FIXED|EXCLUDE|INCLUDE)\s+(.*?)\s*:\s*(.*?)\s*\}$` with IGNORECASE and
DOTALL (group 1 = kind, 2 = dims, 3 = inner).  Braces are written via hex
escapes. -/
def lodPattern : RE :=
  seqs [litS "\x7b", wsStar,
        .group 1 (alts [litS "FIXED", litS "EXCLUDE", litS "INCLUDE"]), wsPlus,
        .group 2 (.starL anyChar), wsStar, litS ":", wsStar,
        .group 3 (.starL anyChar), wsStar, litS "\x7d", .dollar]

/-- Line 200: `(\w+)\((.*)\)` with IGNORECASE (no DOTALL, so `.` excludes
newlines; group 1 = function name, 2 = argument text). -/
def aggPattern : RE :=
  seqs [.group 1 (plusRE pyWordChar), litS "(", .group 2 (.starG anyNotNl), litS ")"]

/-- Lines 137-173: `extract_conditional_aggregation`.  Returns
`some (aggregationCall, filterConditions)`; the Python `(None, None)` result
is modelled as `none`.  (The capture groups are always present on a
successful match; the defensive `none` fallbacks are unreachable.) -/
def extract_conditional_aggregation (expr : String) : Option (String × List String) :=
  let e := (pyStrip expr).data
  match msearch cond_pattern e with
  | some caps =>
    match capGet caps 1, capGet caps 2, capGet caps 3 with
    | some agg, some cond, some val => some (pyUpper agg ++ "(" ++ val ++ ")", [cond])
    | _, _, _ => none
  | none =>
    match msearch simple_pattern e with
    | some caps =>
      match capGet caps 1, capGet caps 2 with
      | some agg, some val => some (pyUpper agg ++ "(" ++ val ++ ")", [])
      | _, _ => none
    | none => none

/-- Lines 183-192: the `re.match` against the LOD pattern, returning the raw
captures `(kind, dims, inner)`. -/
def lodMatch (s : String) : Option (String × String × String) :=
  match mmatch lodPattern s.data with
  | some caps =>
    match capGet caps 1, capGet caps 2, capGet caps 3 with
    | some ty, some dims, some inner => some (ty, dims, inner)
    | _, _, _ => none
  | none => none

/-- Lines 200-205: split `AGG(args)` via `re.match(r'(\w+)\((.*)\)', ...)`. -/
def aggSplit (s : String) : Option (String × String) :=
  match mmatch aggPattern s.data with
  | some caps =>
    match capGet caps 1, capGet caps 2 with
    | some fn, some inside => some (fn, inside)
    | _, _ => none
  | none => none

/-- Line 194: `[d.strip() for d in dims.split(",") if d.strip()]`. -/
def pySplitDims (dims : String) : List String :=
  ((splitCommas dims).map pyStrip).filter (fun d => d ≠ "")

/-- Lines 207-210: normalize the aggregation name to its DAX equivalent
(`COUNTD` becomes `DISTINCTCOUNT`, then `AVG` becomes `AVERAGE`). -/
def aggNorm (a : String) : String :=
  let a1 := if a = "COUNTD" then "DISTINCTCOUNT" else a
  if a1 = "AVG" then "AVERAGE" else a1

/-- Lines 243-251: the INCLUDE iterator table lookup
`{"SUM": "SUMX", ...}.get(agg_func, "SUMX")`. -/
def iterator_map (f : String) : String :=
  if f = "SUM" then "SUMX"
  else if f = "AVERAGE" then "AVERAGEX"
  else if f = "COUNT" then "COUNTX"
  else if f = "MIN" then "MINX"
  else if f = "MAX" then "MAXX"
  else "SUMX"

/-- Lines 180-265: `preprocess_lod`.  The f-string templates are written here
already `.strip()`-ed, which is exact because each template begins and ends
with a fixed non-whitespace character. -/
def preprocess_lod (expr defaultTable : String) : Except PyError String :=
  let e := pyStrip expr
  match lodMatch e with
  | none => .ok e
  | some (tyRaw, dimsStr, inner) =>
    let lodType := pyUpper tyRaw
    let dims := pySplitDims dimsStr
    match extract_conditional_aggregation inner with
    | none => .error (.valueError "LOD expressions must contain supported aggregation")
    | some (aggExpr, filters) =>
      match aggSplit aggExpr with
      | none => .error (.valueError "Unsupported aggregation inside LOD")
      | some (fnRaw, inside) =>
        let measureExpr := pyStrip inside
        let aggFunc := aggNorm (pyUpper fnRaw)
        let dimList := joinSep ", " dims
        let filterClause :=
          if filters.isEmpty then "" else ", " ++ joinSep ", " filters
        if lodType = "FIXED" then
          .ok ("CALCULATE(\n    " ++ aggFunc ++ "(" ++ measureExpr ++ ")\n    " ++
               filterClause ++ ",\n    ALLEXCEPT(" ++ defaultTable ++ ", " ++ dimList ++ ")\n)")
        else if lodType = "EXCLUDE" then
          .ok ("CALCULATE(\n    " ++ aggFunc ++ "(" ++ measureExpr ++ ")\n    " ++
               filterClause ++ ",\n    REMOVEFILTERS(" ++ dimList ++ ")\n)")
        else if lodType = "INCLUDE" then
          if aggFunc = "DISTINCTCOUNT" then
            .ok ("CALCULATE(\n    DISTINCTCOUNT(" ++ measureExpr ++ ")\n    " ++
                 filterClause ++ ",\n    VALUES(" ++ dimList ++ ")\n)")
          else
            .ok (iterator_map aggFunc ++ "(\n    SUMMARIZE(\n        " ++ defaultTable ++
                 ",\n        " ++ dimList ++ ",\n        \"InnerValue\",\n        CALCULATE(" ++
                 aggFunc ++ "(" ++ defaultTable ++ measureExpr ++ ")" ++ filterClause ++
                 ")\n    ),\n    [InnerValue]\n)")
        else .ok e

/-! ## Tokenizer

Lines 9-26: `TOKEN_REGEX.finditer`.  The alternation's branches are mutually
deterministic, so the tokenizer is modelled by a direct scanner that tries
the branches in source order at every position (skipping characters that
match no branch, i.e. whitespace).  `\b` around the keywords is the
word/non-word boundary; since keywords start and end with letters it reduces
to "previous char absent-or-non-word" and "next char absent-or-non-word". -/

/-- The keyword branch alternatives, in source order. -/
def kwList : List String := ["IF", "THEN", "ELSEIF", "ELSE", "END", "CASE", "WHEN"]

/-- Leading `\b` before a word character: the previous character (if any) is
a non-word character. -/
def prevNonWord : Option Char → Bool
  | none => true
  | some c => !pyWordChar c

/-- Trailing `\b` after a word character: the next character (if any) is a
non-word character. -/
def headNonWord : List Char → Bool
  | [] => true
  | c :: _ => !pyWordChar c

/-- Try the keyword alternatives in order at the current position. -/
def findKw : List String → List Char → Option Nat
  | [], _ => none
  | kw :: rest, s =>
    if ciStartsWith kw.data s && headNonWord (s.drop kw.data.length) then some kw.data.length
    else findKw rest s

/-- The KEYWORD branch `\bIF\b|...|\bWHEN\b`. -/
def matchKwAt (prev : Option Char) (s : List Char) : Option Nat :=
  if prevNonWord prev then findKw kwList s else none

/-- Split `rest` (the text after a `[`) as `[^\]]+\]`: the non-empty run of
non-`]` characters and the text after the closing `]`. -/
def fieldSplit : List Char → Option (List Char × List Char)
  | [] => none
  | c :: rest =>
    if c = ']' then none
    else
      match fieldSplit rest with
      | some (i, a) => some (c :: i, a)
      | none =>
        match rest with
        | ']' :: a => some ([c], a)
        | _ => none

/-- The FIELD branch `\[[^\]]+\]`. -/
def matchField : List Char → Option Nat
  | '[' :: rest => (fieldSplit rest).map (fun p => p.1.length + 2)
  | _ => none

/-- The NUMBER branch `-?\d+(\.\d+)?`. -/
def matchNumber (s : List Char) : Option Nat :=
  let (signLen, s1) : Nat × List Char :=
    match s with
    | '-' :: rest => (1, rest)
    | _ => (0, s)
  let d1 := countWhile Char.isDigit s1
  if d1 = 0 then none
  else
    match s1.drop d1 with
    | '.' :: s3 =>
      let d2 := countWhile Char.isDigit s3
      if d2 = 0 then some (signLen + d1) else some (signLen + d1 + 1 + d2)
    | _ => some (signLen + d1)

/-- The STRING branch `"[^"]*"`. -/
def matchStrTok : List Char → Option Nat
  | [] => none
  | c :: rest =>
    if c = '"' then
      let n := countWhile (fun d => d != '"') rest
      if (rest.drop n).head? = some '"' then some (n + 2) else none
    else none

/-- The OPERATOR branch `=|<>|<=|>=|<|>` (alternatives in source order). -/
def matchOp : List Char → Option Nat
  | '=' :: _ => some 1
  | '<' :: '>' :: _ => some 2
  | '<' :: '=' :: _ => some 2
  | '<' :: _ => some 1
  | '>' :: '=' :: _ => some 2
  | '>' :: _ => some 1
  | _ => none

/-- The LPAREN, RPAREN and COMMA branches. -/
def matchParenComma : List Char → Option Nat
  | '(' :: _ => some 1
  | ')' :: _ => some 1
  | ',' :: _ => some 1
  | _ => none

/-- The OTHER branch `[^\s]+`. -/
def matchOther (s : List Char) : Option Nat :=
  let n := countWhile (fun c => !pySpaceChar c) s
  if n = 0 then none else some n

/-- One scan step: the branch alternation in source order, returning the
length of the token starting here (if any). -/
def scanTok (prev : Option Char) (s : List Char) : Option Nat :=
  matchKwAt prev s <|> matchField s <|> matchNumber s <|> matchStrTok s <|>
  matchOp s <|> matchParenComma s <|> matchOther s

/-- The `finditer` loop.  `skip` counts characters of the current token still
to be passed over; `prev` is the previous character of the input (for the
keyword `\b`).  Every matched branch consumes at least one character. -/
def tokenizeGo : Nat → Option Char → List Char → List String
  | _ + 1, _, [] => []
  | skip + 1, _, c :: rest => tokenizeGo skip (some c) rest
  | 0, _, [] => []
  | 0, prev, c :: rest =>
    match scanTok prev (c :: rest) with
    | some n => String.mk ((c :: rest).take n) :: tokenizeGo (n - 1) (some c) rest
    | none => tokenizeGo 0 (some c) rest

/-- Lines 25-26: `tokenize`. -/
def tokenize (s : String) : List String := tokenizeGo 0 none s.data

/-! ## Parser

Lines 33-130: the `Parser` class.  The cursor is modelled by passing the
remaining token list; exceptions by `Except PyError`.  The mutual recursion
is made structural with a fuel parameter that every call decrements; fuel
`4 * |tokens| + 8` is sufficient because between two consecutive decrements
along any call path at least one of two fuel units coincides with the
consumption of a token (`IF`/`CASE`/`ELSEIF`/`WHEN`/`ELSE` is consumed right
after entering the corresponding parser), so the fuel-exhausted branch is
unreachable from `parse_expression`. -/

/-- Lines 57-59: whether the `parse_simple` loop stops at this token.  The
loop continues while the token is truthy (non-empty) and its upper-case form
is not in `{"THEN", "ELSE", "ELSEIF", "WHEN", "END"}`. -/
def isStopTok (t : String) : Bool :=
  t == "" || pyUpper t == "THEN" || pyUpper t == "ELSE" || pyUpper t == "ELSEIF" ||
  pyUpper t == "WHEN" || pyUpper t == "END"

/-- Guard `self.peek() and self.peek().upper() == kw` for a present token. -/
def isKw (t kw : String) : Bool := t != "" && pyUpper t = kw

/-- Lines 55-61 loop body: collect tokens until a stop token. -/
def parseSimpleParts : List String → List String × List String
  | [] => ([], [])
  | t :: ts =>
    if isStopTok t then ([], t :: ts)
    else
      let (ps, rest) := parseSimpleParts ts
      (t :: ps, rest)

/-- Lines 55-61: `parse_simple` — join the collected tokens with single
spaces. -/
def parseSimple (ts : List String) : String × List String :=
  let (ps, rest) := parseSimpleParts ts
  (joinSep " " ps, rest)

/-- Lines 41-46: `consume(expected)` with a non-`None` expectation.  On an
exhausted stream Python evaluates `None.upper()` and raises
`AttributeError`; on a present, mismatching token it raises
`ValueError(f"Expected {expected}, got {tok}")`. -/
def consumeKw (expected : String) : List String → Except PyError (List String)
  | [] => .error (.attributeError "NoneType object has no attribute upper")
  | t :: ts =>
    if pyUpper t ≠ expected then
      .error (.valueError ("Expected " ++ expected ++ ", got " ++ t))
    else .ok ts

/-- Lines 88-91: flatten condition/value pairs into the `SWITCH` argument
list. -/
def pairsFlat : List (String × String) → List String
  | [] => []
  | p :: ps => p.1 :: p.2 :: pairsFlat ps

/-- Line 124 truthiness test `if base_expr:`. -/
def baseTruthy : Option String → Bool
  | some b => b != ""
  | none => false

/-- Lines 121-127: the CASE argument list — equality test against the
scrutinee when it is truthy, the raw WHEN content otherwise. -/
def caseParts (base : Option String) : List (String × String) → List String
  | [] => []
  | (w, t) :: ws =>
    (if baseTruthy base then base.getD "" ++ " = " ++ w else w) :: t :: caseParts base ws

mutual

/-- Lines 48-53: `parse_expression`. -/
def parseExprF : Nat → List String → Except PyError (String × List String)
  | 0, _ => .error (.valueError "fuel exhausted: unreachable from parse_expression")
  | f + 1, ts =>
    match ts.head? with
    | some t =>
      if isKw t "IF" then parseIfF f ts
      else if isKw t "CASE" then parseCaseF f ts
      else .ok (parseSimple ts)
    | none => .ok (parseSimple ts)

/-- Lines 65-93: `parse_if` (exception propagation written as explicit
matches). -/
def parseIfF : Nat → List String → Except PyError (String × List String)
  | 0, _ => .error (.valueError "fuel exhausted: unreachable from parse_expression")
  | f + 1, ts =>
    match consumeKw "IF" ts with
    | .error err => .error err
    | .ok ts =>
      match parseExprF f ts with
      | .error err => .error err
      | .ok (cond, ts) =>
        match consumeKw "THEN" ts with
        | .error err => .error err
        | .ok ts =>
          match parseExprF f ts with
          | .error err => .error err
          | .ok (thenE, ts) =>
            match parseElifLoop f ts with
            | .error err => .error err
            | .ok (pairs, ts) =>
              match parseElseOpt f ts with
              | .error err => .error err
              | .ok (elseE, ts) =>
                match consumeKw "END" ts with
                | .error err => .error err
                | .ok ts =>
                  .ok ("SWITCH(" ++
                    joinSep ", " ("TRUE()" :: pairsFlat ((cond, thenE) :: pairs) ++ [elseE]) ++
                    ")", ts)

/-- Lines 73-78: the ELSEIF loop of `parse_if`. -/
def parseElifLoop : Nat → List String → Except PyError (List (String × String) × List String)
  | 0, _ => .error (.valueError "fuel exhausted: unreachable from parse_expression")
  | f + 1, ts =>
    match ts.head? with
    | some t =>
      if isKw t "ELSEIF" then
        match consumeKw "ELSEIF" ts with
        | .error err => .error err
        | .ok ts =>
          match parseExprF f ts with
          | .error err => .error err
          | .ok (c, ts) =>
            match consumeKw "THEN" ts with
            | .error err => .error err
            | .ok ts =>
              match parseExprF f ts with
              | .error err => .error err
              | .ok (v, ts) =>
                match parseElifLoop f ts with
                | .error err => .error err
                | .ok (ps, ts) => .ok ((c, v) :: ps, ts)
      else .ok ([], ts)
    | none => .ok ([], ts)

/-- Lines 80-84 and 113-117: the optional ELSE clause (shared verbatim by
`parse_if` and `parse_case`), defaulting to `BLANK()`. -/
def parseElseOpt : Nat → List String → Except PyError (String × List String)
  | 0, _ => .error (.valueError "fuel exhausted: unreachable from parse_expression")
  | f + 1, ts =>
    match ts.head? with
    | some t =>
      if isKw t "ELSE" then
        match consumeKw "ELSE" ts with
        | .error err => .error err
        | .ok ts => parseExprF f ts
      else .ok ("BLANK()", ts)
    | none => .ok ("BLANK()", ts)

/-- Lines 106-111: the WHEN loop of `parse_case`. -/
def parseWhenLoop : Nat → List String → Except PyError (List (String × String) × List String)
  | 0, _ => .error (.valueError "fuel exhausted: unreachable from parse_expression")
  | f + 1, ts =>
    match ts.head? with
    | some t =>
      if isKw t "WHEN" then
        match consumeKw "WHEN" ts with
        | .error err => .error err
        | .ok ts =>
          match parseExprF f ts with
          | .error err => .error err
          | .ok (w, ts) =>
            match consumeKw "THEN" ts with
            | .error err => .error err
            | .ok ts =>
              match parseExprF f ts with
              | .error err => .error err
              | .ok (v, ts) =>
                match parseWhenLoop f ts with
                | .error err => .error err
                | .ok (ps, ts) => .ok ((w, v) :: ps, ts)
      else .ok ([], ts)
    | none => .ok ([], ts)

/-- Lines 97-130: `parse_case`.  Note line 101 reads `self.peek().upper()`
without a `None` guard, so `CASE` at the end of the stream raises
`AttributeError`. -/
def parseCaseF : Nat → List String → Except PyError (String × List String)
  | 0, _ => .error (.valueError "fuel exhausted: unreachable from parse_expression")
  | f + 1, ts =>
    match consumeKw "CASE" ts with
    | .error err => .error err
    | .ok ts =>
      match ts.head? with
      | none => .error (.attributeError "NoneType object has no attribute upper")
      | some t =>
        let bp : Option String × List String :=
          if pyUpper t ≠ "WHEN" then
            let p := parseSimple ts
            (some p.1, p.2)
          else (none, ts)
        match parseWhenLoop f bp.2 with
        | .error err => .error err
        | .ok (whens, ts) =>
          match parseElseOpt f ts with
          | .error err => .error err
          | .ok (elseE, ts) =>
            match consumeKw "END" ts with
            | .error err => .error err
            | .ok ts =>
              .ok ("SWITCH(" ++ joinSep ", " ("TRUE()" :: caseParts bp.1 whens ++ [elseE]) ++
                ")", ts)

end

/-- Line 280: `Parser(tokens).parse_expression()` (see the fuel remark
above). -/
def parse_expression (ts : List String) : Except PyError (String × List String) :=
  parseExprF (4 * ts.length + 8) ts

/-! ## Normalizer

Lines 282-303: the `re.sub` chain.  Each substitution regex is
deterministic, so each is modelled by a direct scanner.  The scanners carry
a `skip` count (characters of the matched region still to pass over, since
`re.sub` resumes scanning after a match) and, where the pattern starts with
`\b`, the previous character of the *original* string. -/

/-- Lines 282-286: one match step of `\[([^\]]+)\]` → `table[inner]`.
`skip` passes over the matched characters; the replacement template
`rf"{default_table}[\1]"` is modelled for table names without regex-template
escapes (any backslash in the table name would be processed by Python's
template engine; the callers use plain names). -/
def qualifyGo (tbl : List Char) : Nat → List Char → List Char
  | _ + 1, [] => []
  | skip + 1, _ :: rest => qualifyGo tbl skip rest
  | 0, [] => []
  | 0, c :: rest =>
    if c = '[' then
      match fieldSplit rest with
      | some (i, _) => (tbl ++ '[' :: (i ++ [']'])) ++ qualifyGo tbl (i.length + 1) rest
      | none => c :: qualifyGo tbl 0 rest
    else c :: qualifyGo tbl 0 rest

/-- Lines 282-286: the field-qualification substitution. -/
def qualifyFields (tbl s : String) : String := ⟨qualifyGo tbl.data 0 s.data⟩

/-- Try `NAME\s*\(` (case-insensitive) at the current position, returning
the total match length. -/
def matchFnAt (name s : List Char) : Option Nat :=
  match ciStrip name s with
  | none => none
  | some r =>
    let w := countWhile pySpaceChar r
    match (r.drop w).head? with
    | some '(' => some (name.length + w + 1)
    | _ => none

/-- One function-rename substitution `\bNAME\s*\(` → `repl` (lines
291-295). -/
def fnSubGo (name repl : List Char) : Nat → Option Char → List Char → List Char
  | _ + 1, _, [] => []
  | skip + 1, _, c :: rest => fnSubGo name repl skip (some c) rest
  | 0, _, [] => []
  | 0, prev, c :: rest =>
    if prevNonWord prev then
      match matchFnAt name (c :: rest) with
      | some n => repl ++ fnSubGo name repl (n - 1) (some c) rest
      | none => c :: fnSubGo name repl 0 (some c) rest
    else c :: fnSubGo name repl 0 (some c) rest

/-- Lines 291-295: a function-rename substitution on strings. -/
def fnSub (name repl s : String) : String := ⟨fnSubGo name.data repl.data 0 none s.data⟩

/-- One whole-word substitution `\bW\b` → `repl` (lines 300-301). -/
def wordSubGo (w repl : List Char) : Nat → Option Char → List Char → List Char
  | _ + 1, _, [] => []
  | skip + 1, _, c :: rest => wordSubGo w repl skip (some c) rest
  | 0, _, [] => []
  | 0, prev, c :: rest =>
    if prevNonWord prev && ciStartsWith w (c :: rest) && headNonWord ((c :: rest).drop w.length) then
      repl ++ wordSubGo w repl (w.length - 1) (some c) rest
    else c :: wordSubGo w repl 0 (some c) rest

/-- Lines 300-301: a whole-word operator substitution on strings. -/
def wordSub (w repl s : String) : String := ⟨wordSubGo w.data repl.data 0 none s.data⟩

/-- Line 303: `re.sub(r'\s+', ' ', dax)`. -/
def collapseWsGo : Bool → List Char → List Char
  | _, [] => []
  | inWs, c :: rest =>
    if pySpaceChar c then
      if inWs then collapseWsGo true rest
      else ' ' :: collapseWsGo true rest
    else c :: collapseWsGo false rest

/-- Line 303: whitespace collapse on strings. -/
def collapseWs (s : String) : String := ⟨collapseWsGo false s.data⟩

/-- Line 276: `expr.upper().startswith(("SUMX(", "AVERAGEX(", "COUNTX(",
"MINX(", "MAXX("))`. -/
def startsWithIter (s : String) : Bool :=
  beginsWith "SUMX(".data (pyUpper s).data || beginsWith "AVERAGEX(".data (pyUpper s).data ||
  beginsWith "COUNTX(".data (pyUpper s).data || beginsWith "MINX(".data (pyUpper s).data ||
  beginsWith "MAXX(".data (pyUpper s).data

/-- Lines 282-303: the normalizer chain applied to the parser output. -/
def normalizeDax (defaultTable dax : String) : String :=
  let dax := qualifyFields defaultTable dax
  let dax := fnSub "ISNULL" "ISBLANK(" dax
  let dax := fnSub "IFNULL" "COALESCE(" dax
  let dax := fnSub "ZN" "COALESCE(" dax
  let dax := fnSub "COUNTD" "DISTINCTCOUNT(" dax
  let dax := fnSub "AVG" "AVERAGE(" dax
  let dax := wordSub "AND" "&&" dax
  let dax := wordSub "OR" "||" dax
  pyStrip (collapseWs dax)

/-- Lines 272-304: `tableau_to_dax`, the public entry point (the Python
default for `default_table` is `"Table"`).  The unparsed remainder of the
token stream is discarded, as in line 280. -/
def tableau_to_dax (tableauExpr defaultTable : String) : Except PyError String :=
  let expr0 := pyStrip (pyReplaceQuotes tableauExpr)
  match preprocess_lod expr0 defaultTable with
  | .error err => .error err
  | .ok expr =>
    if startsWithIter expr then .ok expr
    else
      match parse_expression (tokenize expr) with
      | .error err => .error err
      | .ok (dax, _) => .ok (normalizeDax defaultTable dax)

/-! ## Verification-side definitions -/

/-- Equality of conversion results is decidable (used to evaluate concrete
runs of the converter inside proofs). -/
instance {α : Type} [DecidableEq α] : DecidableEq (Except PyError α) := fun a b =>
  match a, b with
  | .ok x, .ok y =>
    if h : x = y then .isTrue (by rw [h]) else .isFalse (by intro hh; cases hh; exact h rfl)
  | .error x, .error y =>
    if h : x = y then .isTrue (by rw [h]) else .isFalse (by intro hh; cases hh; exact h rfl)
  | .ok _, .error _ => .isFalse (by intro h; cases h)
  | .error _, .ok _ => .isFalse (by intro h; cases h)

/-- A "plain" token: truthy (non-empty) and not any of the seven keywords.
These are the tokens a `simpleRun` may contain. -/
def plainTok (t : String) : Bool :=
  t != "" &&
  !(pyUpper t == "IF" || pyUpper t == "THEN" || pyUpper t == "ELSEIF" ||
    pyUpper t == "ELSE" || pyUpper t == "END" || pyUpper t == "CASE" || pyUpper t == "WHEN")

/-- A run of plain tokens (a `simpleRun` in the spec's grammar). -/
def plainRun (ts : List String) : Bool := ts.all plainTok

/-- The continuation of a `simpleRun` is empty or starts with a stop token. -/
def stopsNext : List String → Bool
  | [] => true
  | t :: _ => isStopTok t

/-- The continuation does not begin with `ELSEIF` (so the ELSEIF loop
stops). -/
def notElseifHead : List String → Bool
  | [] => true
  | t :: _ => !isKw t "ELSEIF"

/-- The continuation does not begin with `ELSE` (so the ELSE branch is not
taken). -/
def notElseHead : List String → Bool
  | [] => true
  | t :: _ => !isKw t "ELSE"

/-- Token text of a chain of `ELSEIF c THEN v` clauses. -/
def elifTokens : List (List String × List String) → List String
  | [] => []
  | (c, v) :: ps => "ELSEIF" :: (c ++ "THEN" :: (v ++ elifTokens ps))

/-- Token text of a chain of `WHEN w THEN v` clauses. -/
def whenTokens : List (List String × List String) → List String
  | [] => []
  | (w, v) :: ps => "WHEN" :: (w ++ "THEN" :: (v ++ whenTokens ps))

/-- Token text of an optional `ELSE e` clause. -/
def elseTokens : Option (List String) → List String
  | some e => "ELSE" :: e
  | none => []

/-- Token text of a well-formed IF construct
`IF c THEN v (ELSEIF ci THEN vi)* [ELSE e] END`. -/
def ifTokens (c v : List String) (elifs : List (List String × List String))
    (els : Option (List String)) : List String :=
  "IF" :: (c ++ "THEN" :: (v ++ elifTokens elifs ++ elseTokens els ++ ["END"]))

/-- Token text of a well-formed CASE construct
`CASE [scr] (WHEN wi THEN vi)* [ELSE e] END`. -/
def caseTokens (scr : Option (List String)) (whens : List (List String × List String))
    (els : Option (List String)) : List String :=
  "CASE" :: (scr.getD [] ++ whenTokens whens ++ elseTokens els ++ ["END"])

/-- The joined text of a token run (what `parse_simple` returns for it). -/
def runStr (ts : List String) : String := joinSep " " ts

/-- The pair of joined texts of a condition/value branch. -/
def runPair (p : List String × List String) : String × String :=
  (runStr p.1, runStr p.2)

/-- The else-value of a construct: the joined ELSE run, or the blank literal
when the ELSE clause is absent. -/
def elseVal : Option (List String) → String
  | some e => joinSep " " e
  | none => "BLANK()"

/-- The continuation does not begin with `WHEN` (so the WHEN loop stops). -/
def notWhenHead : List String → Bool
  | [] => true
  | t :: _ => !isKw t "WHEN"

/-! ## Claims about the LOD preprocessor (C3 - C6) and the parser errors (C7) -/

/-- C3: for every FIXED level-of-detail block spanning the whole input (i.e.
on which the LOD pattern matches with kind `FIXED`), with the inner
aggregation extracted as `aggExpr` under filter list `filters` and split as
`fnRaw(inside)`, the preprocessor emits `CALCULATE` of the normalized
aggregation over the measure, with the extracted condition (when present)
as an additional filter and an `ALLEXCEPT` restricting the filter context to
exactly the named dimensions. -/
theorem C3_fixed_lod_emission
    (e tbl ty dimsStr inner aggExpr fnRaw inside : String) (filters : List String)
    (hm : lodMatch (pyStrip e) = some (ty, dimsStr, inner))
    (hty : pyUpper ty = "FIXED")
    (hex : extract_conditional_aggregation inner = some (aggExpr, filters))
    (hsp : aggSplit aggExpr = some (fnRaw, inside)) :
    preprocess_lod e tbl = .ok
      ("CALCULATE(\n    " ++ aggNorm (pyUpper fnRaw) ++ "(" ++ pyStrip inside ++ ")\n    " ++
        (if filters.isEmpty then "" else ", " ++ joinSep ", " filters) ++
        ",\n    ALLEXCEPT(" ++ tbl ++ ", " ++ joinSep ", " (pySplitDims dimsStr) ++ ")\n)") := by
  simp only [preprocess_lod, hm, hex, hsp, hty, if_true]

set_option maxRecDepth 100000 in
/-- C3 witness: the spec's example
`\x7bFIXED [Region]: SUM(IF [Year]=2024 THEN [Sales] END)\x7d` with default
table `Sales`. -/
theorem C3_fixed_lod_emission_witness :
    lodMatch (pyStrip "\x7bFIXED [Region]: SUM(IF [Year]=2024 THEN [Sales] END)\x7d") =
      some ("FIXED", "[Region]", "SUM(IF [Year]=2024 THEN [Sales] END)") ∧
    extract_conditional_aggregation "SUM(IF [Year]=2024 THEN [Sales] END)" =
      some ("SUM([Sales])", ["[Year]=2024"]) ∧
    preprocess_lod "\x7bFIXED [Region]: SUM(IF [Year]=2024 THEN [Sales] END)\x7d" "Sales" =
      .ok "CALCULATE(\n    SUM([Sales])\n    , [Year]=2024,\n    ALLEXCEPT(Sales, [Region])\n)" :=
  ⟨by decide, by decide,
    (C3_fixed_lod_emission "\x7bFIXED [Region]: SUM(IF [Year]=2024 THEN [Sales] END)\x7d"
      "Sales" "FIXED" "[Region]" "SUM(IF [Year]=2024 THEN [Sales] END)"
      "SUM([Sales])" "SUM" "[Sales]" ["[Year]=2024"]
      (by decide) (by decide) (by decide) (by decide)).trans (by decide)⟩

/-- C4: for every INCLUDE level-of-detail block spanning the whole input,
if the normalized aggregation is a distinct count the preprocessor emits the
direct `CALCULATE(DISTINCTCOUNT(...), ..., VALUES(dims))` form restricted to
the distinct values of the named dimensions; for every other aggregation it
emits the two-level structure: a `SUMMARIZE` grouping by the named
dimensions with a per-group `CALCULATE` aggregate, re-aggregated by the
iterator matching the outer aggregation (`iterator_map`). -/
theorem C4_include_lod_emission
    (e tbl ty dimsStr inner aggExpr fnRaw inside : String) (filters : List String)
    (hm : lodMatch (pyStrip e) = some (ty, dimsStr, inner))
    (hty : pyUpper ty = "INCLUDE")
    (hex : extract_conditional_aggregation inner = some (aggExpr, filters))
    (hsp : aggSplit aggExpr = some (fnRaw, inside)) :
    preprocess_lod e tbl = .ok
      (if aggNorm (pyUpper fnRaw) = "DISTINCTCOUNT" then
        "CALCULATE(\n    DISTINCTCOUNT(" ++ pyStrip inside ++ ")\n    " ++
          (if filters.isEmpty then "" else ", " ++ joinSep ", " filters) ++
          ",\n    VALUES(" ++ joinSep ", " (pySplitDims dimsStr) ++ ")\n)"
      else
        iterator_map (aggNorm (pyUpper fnRaw)) ++ "(\n    SUMMARIZE(\n        " ++ tbl ++
          ",\n        " ++ joinSep ", " (pySplitDims dimsStr) ++
          ",\n        \"InnerValue\",\n        CALCULATE(" ++ aggNorm (pyUpper fnRaw) ++
          "(" ++ tbl ++ pyStrip inside ++ ")" ++
          (if filters.isEmpty then "" else ", " ++ joinSep ", " filters) ++
          ")\n    ),\n    [InnerValue]\n)") := by
  simp only [preprocess_lod, hm, hex, hsp, hty]
  rw [if_neg (by decide : ¬("INCLUDE" : String) = "FIXED"),
    if_neg (by decide : ¬("INCLUDE" : String) = "EXCLUDE"), if_pos trivial]
  by_cases hdc : aggNorm (pyUpper fnRaw) = "DISTINCTCOUNT"
  · rw [if_pos hdc, if_pos hdc]
  · rw [if_neg hdc, if_neg hdc]

set_option maxRecDepth 100000 in
/-- C4 witness: a COUNTD INCLUDE block takes the direct distinct-count form
and a SUM INCLUDE block takes the two-level `SUMX(SUMMARIZE(...))` form. -/
theorem C4_include_lod_emission_witness :
    lodMatch (pyStrip "\x7bINCLUDE [Region]: COUNTD([Cust])\x7d") =
      some ("INCLUDE", "[Region]", "COUNTD([Cust])") ∧
    preprocess_lod "\x7bINCLUDE [Region]: COUNTD([Cust])\x7d" "T" =
      .ok "CALCULATE(\n    DISTINCTCOUNT([Cust])\n    ,\n    VALUES([Region])\n)" ∧
    preprocess_lod "\x7bINCLUDE [Region]: SUM([Sales])\x7d" "T" =
      .ok ("SUMX(\n    SUMMARIZE(\n        T,\n        [Region],\n        \"InnerValue\"," ++
        "\n        CALCULATE(SUM(T[Sales]))\n    ),\n    [InnerValue]\n)") :=
  ⟨by decide,
    (C4_include_lod_emission "\x7bINCLUDE [Region]: COUNTD([Cust])\x7d" "T"
      "INCLUDE" "[Region]" "COUNTD([Cust])" "COUNTD([Cust])" "COUNTD" "[Cust]" []
      (by decide) (by decide) (by decide) (by decide)).trans (by decide),
    (C4_include_lod_emission "\x7bINCLUDE [Region]: SUM([Sales])\x7d" "T"
      "INCLUDE" "[Region]" "SUM([Sales])" "SUM([Sales])" "SUM" "[Sales]" []
      (by decide) (by decide) (by decide) (by decide)).trans (by decide)⟩

/-- C5 (amended): whenever the preprocessor's rewrite begins with one of the
iterator names `SUMX( / AVERAGEX( / COUNTX( / MINX( / MAXX(` — in particular
the two-level INCLUDE form — it is returned immediately as the final output,
skipping tokenization, parsing and normalization. -/
theorem C5_iterator_terminal_amended (e tbl out : String)
    (h : preprocess_lod (pyStrip (pyReplaceQuotes e)) tbl = .ok out)
    (hit : startsWithIter out = true) :
    tableau_to_dax e tbl = .ok out := by
  simp only [tableau_to_dax, h, hit]
  rfl

set_option maxRecDepth 100000 in
/-- C5 witness: the SUM INCLUDE block's iterator rewrite is returned
verbatim (newlines and unqualified inner fields intact). -/
theorem C5_iterator_terminal_amended_witness :
    preprocess_lod (pyStrip (pyReplaceQuotes "\x7bINCLUDE [Region]: SUM([Sales])\x7d")) "T" =
      .ok ("SUMX(\n    SUMMARIZE(\n        T,\n        [Region],\n        \"InnerValue\"," ++
        "\n        CALCULATE(SUM(T[Sales]))\n    ),\n    [InnerValue]\n)") ∧
    tableau_to_dax "\x7bINCLUDE [Region]: SUM([Sales])\x7d" "T" =
      .ok ("SUMX(\n    SUMMARIZE(\n        T,\n        [Region],\n        \"InnerValue\"," ++
        "\n        CALCULATE(SUM(T[Sales]))\n    ),\n    [InnerValue]\n)") :=
  ⟨by decide,
    C5_iterator_terminal_amended "\x7bINCLUDE [Region]: SUM([Sales])\x7d" "T" _
      (by decide) (by decide)⟩

set_option maxRecDepth 100000 in
/-- C5 counterexample: the INCLUDE distinct-count rewrite begins with
`CALCULATE(`, so it is *not* returned immediately: it re-enters
tokenization, parsing and normalization, which collapse its whitespace and
qualify its fields.  The final output differs from the preprocessor's
rewrite. -/
theorem C5_countd_reenters_pipeline :
    preprocess_lod "\x7bINCLUDE [Region]: COUNTD([Cust])\x7d" "T" =
      .ok "CALCULATE(\n    DISTINCTCOUNT([Cust])\n    ,\n    VALUES([Region])\n)" ∧
    tableau_to_dax "\x7bINCLUDE [Region]: COUNTD([Cust])\x7d" "T" =
      .ok "CALCULATE( DISTINCTCOUNT(T[Cust]) , VALUES(T[Region]) )" ∧
    tableau_to_dax "\x7bINCLUDE [Region]: COUNTD([Cust])\x7d" "T" ≠
      preprocess_lod "\x7bINCLUDE [Region]: COUNTD([Cust])\x7d" "T" :=
  ⟨by decide, by decide, by decide⟩

/-- C6: a level-of-detail block whose inner expression matches neither the
conditional-aggregation form nor the plain-aggregation form (the extraction
returns nothing) makes the whole conversion fail with the human-readable
`ValueError` and produce no output string. -/
theorem C6_lod_without_aggregation_fails
    (e tbl ty dimsStr inner : String)
    (hq : pyStrip (pyReplaceQuotes e) = e)
    (hm : lodMatch (pyStrip e) = some (ty, dimsStr, inner))
    (hex : extract_conditional_aggregation inner = none) :
    tableau_to_dax e tbl =
      .error (.valueError "LOD expressions must contain supported aggregation") := by
  simp only [tableau_to_dax, hq, preprocess_lod, hm, hex]

set_option maxRecDepth 100000 in
/-- C6 witness: `\x7bFIXED [a]: [b]\x7d` has no recognized aggregation in its
body, and the conversion fails. -/
theorem C6_lod_without_aggregation_fails_witness :
    extract_conditional_aggregation "[b]" = none ∧
    tableau_to_dax "\x7bFIXED [a]: [b]\x7d" "T" =
      .error (.valueError "LOD expressions must contain supported aggregation") :=
  ⟨by decide,
    C6_lod_without_aggregation_fails "\x7bFIXED [a]: [b]\x7d" "T" "FIXED" "[a]" "[b]"
      (by decide) (by decide) (by decide)⟩

set_option maxRecDepth 100000 in
/-- C7: evaluation at the failing input.  On `IF [A] THEN 1` the `END`
expectation is checked against an exhausted token stream: `consume("END")`
evaluates `None.upper()` and the conversion fails with `AttributeError`,
which carries neither the expected keyword nor an actual token — not the
designed `ValueError("Expected ..., got ...")`.  When a mismatching token is
still present (second conjunct), the designed parse error with expected and
actual token is raised. -/
theorem C7_missing_end_attribute_error :
    tableau_to_dax "IF [A] THEN 1" "T" =
      .error (.attributeError "NoneType object has no attribute upper") ∧
    tableau_to_dax "IF a THEN b WHEN c END" "T" =
      .error (.valueError "Expected END, got WHEN") :=
  ⟨by decide, by decide⟩

set_option maxRecDepth 100000 in
/-- C8 counterexample: on the keyword-free input `1<2` the conversion
returns `1 < 2` — the tokens are re-joined with single spaces — although no
bracketed identifier was qualified and no function renamed, so the output is
not "otherwise unchanged". -/
theorem C8_spacing_counterexample :
    tableau_to_dax "1<2" "T" = .ok "1 < 2" ∧ ("1 < 2" : String) ≠ "1<2" :=
  ⟨by decide, by decide⟩

set_option maxRecDepth 100000 in
/-- C9 counterexample: an input that already contains a qualified reference
is qualified again — `Table[Sales]` with default table `Table` yields
`TableTable[Sales]`, an identifier of the form `<table><table>[Name]`. -/
theorem C9_double_prefix_counterexample :
    tableau_to_dax "Table[Sales]" "Table" = .ok "TableTable[Sales]" := by decide

/-! ## Parser correctness on well-formed constructs (C1, C2) -/

/-- Appending two strings concatenates their character lists. -/
theorem strData_append (a b : String) : (a ++ b).data = a.data ++ b.data := rfl

/-- A string is non-empty iff its character list is. -/
theorem strNe_empty_iff (s : String) : s ≠ "" ↔ s.data ≠ [] := by
  constructor
  · intro h hd
    exact h (String.ext hd)
  · intro h hd
    subst hd
    exact h rfl

/-- The space-joined text of a run starting with a non-empty token is
non-empty. -/
theorem joinSep_cons_ne (t : String) (ts : List String) (ht : t ≠ "") :
    joinSep " " (t :: ts) ≠ "" := by
  cases ts with
  | nil => simpa [joinSep]
  | cons u us =>
    simp only [joinSep]
    rw [strNe_empty_iff]
    rw [strData_append, strData_append]
    simp only [ne_eq, List.append_assoc, List.append_eq_nil]
    intro hc
    exact (strNe_empty_iff t).mp ht hc.1

/-- Unfold a plain-run hypothesis one token. -/
theorem plainRun_cons {t : String} {ts : List String} (h : plainRun (t :: ts) = true) :
    plainTok t = true ∧ plainRun ts = true := by
  simpa [plainRun] using h

/-- A plain token is not a stop token, not a keyword guard, and non-empty. -/
theorem plain_guards (t : String) (h : plainTok t = true) :
    isStopTok t = false ∧ isKw t "IF" = false ∧ isKw t "CASE" = false ∧
    isKw t "ELSEIF" = false ∧ isKw t "ELSE" = false ∧ isKw t "WHEN" = false ∧
    pyUpper t ≠ "WHEN" ∧ t ≠ "" := by
  simp only [plainTok, Bool.and_eq_true, Bool.not_eq_true', Bool.or_eq_false_iff,
    bne_iff_ne, ne_eq, beq_eq_false_iff_ne] at h
  obtain ⟨h1, ⟨⟨⟨⟨⟨⟨h2, h3⟩, h4⟩, h5⟩, h6⟩, h7⟩, h8⟩⟩ := h
  refine ⟨?_, ?_, ?_, ?_, ?_, ?_, h8, h1⟩
  · simp [isStopTok, h1, h3, h4, h5, h6, h8]
  · simp [isKw, h2]
  · simp [isKw, h7]
  · simp [isKw, h4]
  · simp [isKw, h5]
  · simp [isKw, h8]

/-- A stop token does not trigger the IF or CASE branch of
`parse_expression`. -/
theorem stop_guards (t : String) (h : isStopTok t = true) :
    isKw t "IF" = false ∧ isKw t "CASE" = false := by
  simp only [isStopTok, Bool.or_eq_true, beq_iff_eq] at h
  rcases h with ((((h | h) | h) | h) | h) | h
  · constructor <;> simp [isKw, h]
  all_goals constructor <;> (simp only [isKw, h]; exact Bool.and_false _)

/-- `parse_simple`'s collection loop consumes exactly a plain run and leaves
a continuation that is empty or starts with a stop token. -/
theorem parseSimpleParts_split (ts rest : List String) (hts : plainRun ts = true)
    (hr : stopsNext rest = true) : parseSimpleParts (ts ++ rest) = (ts, rest) := by
  induction ts with
  | nil =>
    cases rest with
    | nil => rfl
    | cons t r =>
      have hst : isStopTok t = true := hr
      simp [parseSimpleParts, hst]
  | cons t ts ih =>
    obtain ⟨hp, hts2⟩ := plainRun_cons hts
    have hstop := (plain_guards t hp).1
    simp [parseSimpleParts, hstop, ih hts2]

/-- `parse_simple` on a plain run followed by a stop continuation returns
the space-joined run. -/
theorem parseSimple_split (ts rest : List String) (hts : plainRun ts = true)
    (hr : stopsNext rest = true) : parseSimple (ts ++ rest) = (joinSep " " ts, rest) := by
  simp [parseSimple, parseSimpleParts_split ts rest hts hr]

/-- `parse_expression` on a plain run followed by a stop continuation takes
the simple-run branch. -/
theorem parseExprF_plain (f : Nat) (ts rest : List String)
    (hts : plainRun ts = true) (hr : stopsNext rest = true) :
    parseExprF (f + 1) (ts ++ rest) = .ok (joinSep " " ts, rest) := by
  cases ts with
  | nil =>
    cases rest with
    | nil => simp [parseExprF, parseSimple, parseSimpleParts, joinSep]
    | cons t r =>
      have hst : isStopTok t = true := hr
      obtain ⟨hif, hcase⟩ := stop_guards t hst
      simpa [parseExprF, hif, hcase] using parseSimple_split [] (t :: r) rfl hr
  | cons t ts2 =>
    obtain ⟨hp, _⟩ := plainRun_cons hts
    have g := plain_guards t hp
    simpa [parseExprF, g.2.1, g.2.2.1] using parseSimple_split (t :: ts2) rest hts hr

/-- Consuming a literal `IF`. -/
theorem consume_if (l : List String) : consumeKw "IF" ("IF" :: l) = .ok l := rfl

/-- Consuming a literal `THEN`. -/
theorem consume_then (l : List String) : consumeKw "THEN" ("THEN" :: l) = .ok l := rfl

/-- Consuming a literal `END`. -/
theorem consume_end (l : List String) : consumeKw "END" ("END" :: l) = .ok l := rfl

/-- One-step unfolding of `parse_if` at an `IF` head. -/
theorem parseIfF_cons (f : Nat) (l : List String) :
    parseIfF (f + 1) ("IF" :: l) =
      match parseExprF f l with
      | .error err => .error err
      | .ok (cond, ts) =>
        match consumeKw "THEN" ts with
        | .error err => .error err
        | .ok ts =>
          match parseExprF f ts with
          | .error err => .error err
          | .ok (thenE, ts) =>
            match parseElifLoop f ts with
            | .error err => .error err
            | .ok (pairs, ts) =>
              match parseElseOpt f ts with
              | .error err => .error err
              | .ok (elseE, ts) =>
                match consumeKw "END" ts with
                | .error err => .error err
                | .ok ts =>
                  .ok ("SWITCH(" ++
                    joinSep ", " ("TRUE()" :: pairsFlat ((cond, thenE) :: pairs) ++ [elseE]) ++
                    ")", ts) := rfl

/-- One-step unfolding of the ELSEIF loop at an `ELSEIF` head. -/
theorem parseElifLoop_cons (f : Nat) (l : List String) :
    parseElifLoop (f + 1) ("ELSEIF" :: l) =
      match parseExprF f l with
      | .error err => .error err
      | .ok (c, ts) =>
        match consumeKw "THEN" ts with
        | .error err => .error err
        | .ok ts =>
          match parseExprF f ts with
          | .error err => .error err
          | .ok (v, ts) =>
            match parseElifLoop f ts with
            | .error err => .error err
            | .ok (ps, ts) => .ok ((c, v) :: ps, ts) := rfl

/-- One-step unfolding of the WHEN loop at a `WHEN` head. -/
theorem parseWhenLoop_cons (f : Nat) (l : List String) :
    parseWhenLoop (f + 1) ("WHEN" :: l) =
      match parseExprF f l with
      | .error err => .error err
      | .ok (w, ts) =>
        match consumeKw "THEN" ts with
        | .error err => .error err
        | .ok ts =>
          match parseExprF f ts with
          | .error err => .error err
          | .ok (v, ts) =>
            match parseWhenLoop f ts with
            | .error err => .error err
            | .ok (ps, ts) => .ok ((w, v) :: ps, ts) := rfl

/-- One-step unfolding of the optional ELSE clause at an `ELSE` head. -/
theorem parseElseOpt_cons (f : Nat) (l : List String) :
    parseElseOpt (f + 1) ("ELSE" :: l) = parseExprF f l := rfl

/-- One-step unfolding of `parse_case` at a `CASE` head. -/
theorem parseCaseF_cons (f : Nat) (l : List String) :
    parseCaseF (f + 1) ("CASE" :: l) =
      match l.head? with
      | none => .error (.attributeError "NoneType object has no attribute upper")
      | some t =>
        let bp : Option String × List String :=
          if pyUpper t ≠ "WHEN" then (some (parseSimple l).1, (parseSimple l).2) else (none, l)
        match parseWhenLoop f bp.2 with
        | .error err => .error err
        | .ok (whens, ts) =>
          match parseElseOpt f ts with
          | .error err => .error err
          | .ok (elseE, ts) =>
            match consumeKw "END" ts with
            | .error err => .error err
            | .ok ts =>
              .ok ("SWITCH(" ++ joinSep ", " ("TRUE()" :: caseParts bp.1 whens ++ [elseE]) ++
                ")", ts) := rfl

/-- A chain of ELSEIF clauses (or its stop continuation) starts with a stop
token. -/
theorem stopsNext_elifTokens (ps : List (List String × List String)) (rest : List String)
    (hr : stopsNext rest = true) : stopsNext (elifTokens ps ++ rest) = true := by
  cases ps with
  | nil => simpa [elifTokens]
  | cons p ps => cases p; rfl

/-- A chain of WHEN clauses (or its stop continuation) starts with a stop
token. -/
theorem stopsNext_whenTokens (ps : List (List String × List String)) (rest : List String)
    (hr : stopsNext rest = true) : stopsNext (whenTokens ps ++ rest) = true := by
  cases ps with
  | nil => simpa [whenTokens]
  | cons p ps => cases p; rfl

/-- The ELSEIF loop consumes exactly the chain of well-formed ELSEIF clauses
and returns their condition/value pairs in source order. -/
theorem parseElifLoop_split :
    ∀ (elifs : List (List String × List String)) (f : Nat) (rest : List String),
      (elifs.all fun p => plainRun p.1 && plainRun p.2) = true →
      stopsNext rest = true → notElseifHead rest = true →
      elifs.length + 1 ≤ f →
      parseElifLoop f (elifTokens elifs ++ rest) = .ok (elifs.map runPair, rest)
  | [], f, rest, _, hr, hne, hf => by
    obtain ⟨f2, rfl⟩ : ∃ f2, f = f2 + 1 := ⟨f - 1, by omega⟩
    cases rest with
    | nil => simp [elifTokens, parseElifLoop]
    | cons t r =>
      have hkw : isKw t "ELSEIF" = false := by simpa [notElseifHead] using hne
      simp [elifTokens, parseElifLoop, hkw]
  | (c, v) :: ps, f, rest, hall, hr, hne, hf => by
    simp only [List.length_cons] at hf
    obtain ⟨f2, rfl⟩ : ∃ f2, f = f2 + 1 := ⟨f - 1, by omega⟩
    obtain ⟨f3, rfl⟩ : ∃ f3, f2 = f3 + 1 := ⟨f2 - 1, by omega⟩
    simp only [List.all_cons, Bool.and_eq_true] at hall
    obtain ⟨⟨hc, hv⟩, hps⟩ := hall
    have assoc : elifTokens ((c, v) :: ps) ++ rest =
        "ELSEIF" :: (c ++ ("THEN" :: (v ++ (elifTokens ps ++ rest)))) := by
      simp [elifTokens]
    have e1 := parseExprF_plain f3 c ("THEN" :: (v ++ (elifTokens ps ++ rest))) hc rfl
    have e2 := parseExprF_plain f3 v (elifTokens ps ++ rest) hv
      (stopsNext_elifTokens ps rest hr)
    have e3 := parseElifLoop_split ps (f3 + 1) rest hps hr hne (by omega)
    rw [assoc, parseElifLoop_cons]
    simp only [e1, consume_then, e2, e3]
    simp [runPair, runStr]

/-- The WHEN loop consumes exactly the chain of well-formed WHEN clauses and
returns their condition/value pairs in source order. -/
theorem parseWhenLoop_split :
    ∀ (whens : List (List String × List String)) (f : Nat) (rest : List String),
      (whens.all fun p => plainRun p.1 && plainRun p.2) = true →
      stopsNext rest = true → notWhenHead rest = true →
      whens.length + 1 ≤ f →
      parseWhenLoop f (whenTokens whens ++ rest) = .ok (whens.map runPair, rest)
  | [], f, rest, _, hr, hne, hf => by
    obtain ⟨f2, rfl⟩ : ∃ f2, f = f2 + 1 := ⟨f - 1, by omega⟩
    cases rest with
    | nil => simp [whenTokens, parseWhenLoop]
    | cons t r =>
      have hkw : isKw t "WHEN" = false := by simpa [notWhenHead] using hne
      simp [whenTokens, parseWhenLoop, hkw]
  | (w, v) :: ps, f, rest, hall, hr, hne, hf => by
    simp only [List.length_cons] at hf
    obtain ⟨f2, rfl⟩ : ∃ f2, f = f2 + 1 := ⟨f - 1, by omega⟩
    obtain ⟨f3, rfl⟩ : ∃ f3, f2 = f3 + 1 := ⟨f2 - 1, by omega⟩
    simp only [List.all_cons, Bool.and_eq_true] at hall
    obtain ⟨⟨hw, hv⟩, hps⟩ := hall
    have assoc : whenTokens ((w, v) :: ps) ++ rest =
        "WHEN" :: (w ++ ("THEN" :: (v ++ (whenTokens ps ++ rest)))) := by
      simp [whenTokens]
    have e1 := parseExprF_plain f3 w ("THEN" :: (v ++ (whenTokens ps ++ rest))) hw rfl
    have e2 := parseExprF_plain f3 v (whenTokens ps ++ rest) hv
      (stopsNext_whenTokens ps rest hr)
    have e3 := parseWhenLoop_split ps (f3 + 1) rest hps hr hne (by omega)
    rw [assoc, parseWhenLoop_cons]
    simp only [e1, consume_then, e2, e3]
    simp [runPair, runStr]

/-- Absent ELSE clause: the else-value defaults to `BLANK()`. -/
theorem parseElseOpt_off (f : Nat) (rest : List String) (hne : notElseHead rest = true)
    (hf : 1 ≤ f) : parseElseOpt f rest = .ok ("BLANK()", rest) := by
  obtain ⟨f2, rfl⟩ : ∃ f2, f = f2 + 1 := ⟨f - 1, by omega⟩
  cases rest with
  | nil => simp [parseElseOpt]
  | cons t r =>
    have hkw : isKw t "ELSE" = false := by simpa [notElseHead] using hne
    simp [parseElseOpt, hkw]

/-- Present ELSE clause: the else-value is the joined ELSE run. -/
theorem parseElseOpt_on (f : Nat) (e rest : List String) (he : plainRun e = true)
    (hr : stopsNext rest = true) (hf : 2 ≤ f) :
    parseElseOpt f ("ELSE" :: (e ++ rest)) = .ok (joinSep " " e, rest) := by
  obtain ⟨f2, rfl⟩ : ∃ f2, f = f2 + 1 := ⟨f - 1, by omega⟩
  obtain ⟨f3, rfl⟩ : ∃ f3, f2 = f3 + 1 := ⟨f2 - 1, by omega⟩
  rw [parseElseOpt_cons]
  exact parseExprF_plain f3 e rest he hr

/-- The ELSE-or-END continuation starts with a stop token. -/
theorem stopsNext_elseEnd (els : Option (List String)) :
    stopsNext (elseTokens els ++ ["END"]) = true := by
  cases els <;> rfl

/-- The ELSE-or-END continuation does not start with `ELSEIF`. -/
theorem notElseifHead_elseEnd (els : Option (List String)) :
    notElseifHead (elseTokens els ++ ["END"]) = true := by
  cases els <;> rfl

/-- The ELSE-or-END continuation does not start with `WHEN`. -/
theorem notWhenHead_elseEnd (els : Option (List String)) :
    notWhenHead (elseTokens els ++ ["END"]) = true := by
  cases els <;> rfl

/-- Dispatch of the optional ELSE clause before the final `END`. -/
theorem parseElseOpt_elseEnd (f : Nat) (els : Option (List String))
    (he : plainRun (els.getD []) = true) (hf : 2 ≤ f) :
    parseElseOpt f (elseTokens els ++ ["END"]) = .ok (elseVal els, ["END"]) := by
  cases els with
  | none => exact parseElseOpt_off f ["END"] rfl (by omega)
  | some e =>
    have hsh : elseTokens (some e) ++ ["END"] = "ELSE" :: (e ++ ["END"]) := by
      simp [elseTokens]
    rw [hsh]
    exact parseElseOpt_on f e ["END"] he rfl hf

/-- Token counting: each ELSEIF clause contributes at least two tokens. -/
theorem elifTokens_len_ge (elifs : List (List String × List String)) :
    2 * elifs.length ≤ (elifTokens elifs).length := by
  induction elifs with
  | nil => simp [elifTokens]
  | cons p ps ih =>
    cases p
    simp only [elifTokens, List.length_cons, List.length_append]
    omega

/-- Token counting: each WHEN clause contributes at least two tokens. -/
theorem whenTokens_len_ge (whens : List (List String × List String)) :
    2 * whens.length ≤ (whenTokens whens).length := by
  induction whens with
  | nil => simp [whenTokens]
  | cons p ps ih =>
    cases p
    simp only [whenTokens, List.length_cons, List.length_append]
    omega

/-- `parse_if` on a well-formed IF construct (with any sufficient fuel). -/
theorem parseIfF_wf (f : Nat) (c v : List String)
    (elifs : List (List String × List String)) (els : Option (List String))
    (hc : plainRun c = true) (hv : plainRun v = true)
    (hel : (elifs.all fun p => plainRun p.1 && plainRun p.2) = true)
    (he : plainRun (els.getD []) = true)
    (hf : elifs.length + 4 ≤ f) :
    parseIfF f (ifTokens c v elifs els) =
      .ok ("SWITCH(" ++ joinSep ", "
        ("TRUE()" :: pairsFlat ((runStr c, runStr v) :: elifs.map runPair) ++ [elseVal els]) ++
        ")", []) := by
  obtain ⟨f2, rfl⟩ : ∃ f2, f = f2 + 1 := ⟨f - 1, by omega⟩
  obtain ⟨f3, rfl⟩ : ∃ f3, f2 = f3 + 1 := ⟨f2 - 1, by omega⟩
  have assoc : ifTokens c v elifs els =
      "IF" :: (c ++ ("THEN" :: (v ++ (elifTokens elifs ++ (elseTokens els ++ ["END"]))))) := by
    simp [ifTokens]
  have e1 := parseExprF_plain f3 c
    ("THEN" :: (v ++ (elifTokens elifs ++ (elseTokens els ++ ["END"])))) hc rfl
  have e2 := parseExprF_plain f3 v (elifTokens elifs ++ (elseTokens els ++ ["END"])) hv
    (stopsNext_elifTokens elifs _ (stopsNext_elseEnd els))
  have e3 := parseElifLoop_split elifs (f3 + 1) (elseTokens els ++ ["END"]) hel
    (stopsNext_elseEnd els) (notElseifHead_elseEnd els) (by omega)
  have e4 := parseElseOpt_elseEnd (f3 + 1) els he (by omega)
  rw [assoc, parseIfF_cons]
  simp only [e1, consume_then, e2, e3, e4, consume_end]
  simp [runStr]

/-- C1: for every well-formed IF construct
`IF c THEN v (ELSEIF ci THEN vi)* [ELSE e] END` whose condition, value and
else runs are simple token runs, the parser emits a single `SWITCH` whose
first argument is the always-true sentinel `TRUE()`, followed by exactly the
`n+1` condition/value pairs in source order, terminated by the else-value,
which is `BLANK()` exactly when the ELSE clause is absent. -/
theorem C1_if_switch_emission (c v : List String)
    (elifs : List (List String × List String)) (els : Option (List String))
    (hc : plainRun c = true) (hv : plainRun v = true)
    (hel : (elifs.all fun p => plainRun p.1 && plainRun p.2) = true)
    (he : plainRun (els.getD []) = true) :
    parse_expression (ifTokens c v elifs els) =
      .ok ("SWITCH(" ++ joinSep ", "
        ("TRUE()" :: pairsFlat ((runStr c, runStr v) :: elifs.map runPair) ++ [elseVal els]) ++
        ")", []) := by
  have hlen := elifTokens_len_ge elifs
  have hL : elifs.length + 4 ≤ 4 * (ifTokens c v elifs els).length + 7 := by
    simp only [ifTokens, List.length_cons, List.length_append]
    omega
  have step : parse_expression (ifTokens c v elifs els) =
      parseIfF (4 * (ifTokens c v elifs els).length + 7) (ifTokens c v elifs els) := rfl
  rw [step]
  exact parseIfF_wf _ c v elifs els hc hv hel he hL

set_option maxRecDepth 100000 in
/-- C1 witness: `IF [A] THEN 1 ELSEIF [B] THEN 2 ELSE 3 END`. -/
theorem C1_if_switch_emission_witness :
    plainRun ["[A]"] = true ∧
    parse_expression ["IF", "[A]", "THEN", "1", "ELSEIF", "[B]", "THEN", "2",
        "ELSE", "3", "END"] =
      .ok ("SWITCH(TRUE(), [A], 1, [B], 2, 3)", []) :=
  ⟨by decide,
    (C1_if_switch_emission ["[A]"] ["1"] [(["[B]"], ["2"])] (some ["3"])
      (by decide) (by decide) (by decide) (by decide)).trans (by decide)⟩

/-- `caseParts` with a truthy scrutinee text rewrites every WHEN content into
an equality test against the scrutinee. -/
theorem caseParts_some (b : String) (hb : b ≠ "") (ps : List (String × String)) :
    caseParts (some b) ps = pairsFlat (ps.map fun p => (b ++ " = " ++ p.1, p.2)) := by
  induction ps with
  | nil => rfl
  | cons p ps ih =>
    cases p
    simp [caseParts, pairsFlat, baseTruthy, hb, ih]

/-- `caseParts` without a scrutinee uses each WHEN content directly. -/
theorem caseParts_none (ps : List (String × String)) : caseParts none ps = pairsFlat ps := by
  induction ps with
  | nil => rfl
  | cons p ps ih =>
    cases p
    simp [caseParts, pairsFlat, baseTruthy, ih]

/-- `parse_case` on a well-formed CASE construct (with any sufficient
fuel). -/
theorem parseCaseF_wf (f : Nat) (scr : Option (List String))
    (whens : List (List String × List String)) (els : Option (List String))
    (hs : ∀ s, scr = some s → s ≠ [] ∧ plainRun s = true)
    (hw : scr = none → whens ≠ [])
    (hwh : (whens.all fun p => plainRun p.1 && plainRun p.2) = true)
    (he : plainRun (els.getD []) = true)
    (hf : whens.length + 4 ≤ f) :
    parseCaseF f (caseTokens scr whens els) =
      .ok ("SWITCH(" ++ joinSep ", " ("TRUE()" ::
        (match scr with
         | some s => pairsFlat (whens.map fun p => (runStr s ++ " = " ++ runStr p.1, runStr p.2))
         | none => pairsFlat (whens.map runPair)) ++ [elseVal els]) ++ ")", []) := by
  obtain ⟨f2, rfl⟩ : ∃ f2, f = f2 + 1 := ⟨f - 1, by omega⟩
  cases scr with
  | some s =>
    obtain ⟨hs1, hs2⟩ := hs s rfl
    obtain ⟨t0, s2, rfl⟩ : ∃ t0 s2, s = t0 :: s2 := by
      cases s with
      | nil => exact absurd rfl hs1
      | cons a b => exact ⟨a, b, rfl⟩
    obtain ⟨hpt, _⟩ := plainRun_cons hs2
    have g := plain_guards t0 hpt
    have assoc : caseTokens (some (t0 :: s2)) whens els =
        "CASE" :: ((t0 :: s2) ++ (whenTokens whens ++ (elseTokens els ++ ["END"]))) := by
      simp [caseTokens]
    have eS := parseSimple_split (t0 :: s2) (whenTokens whens ++ (elseTokens els ++ ["END"]))
      hs2 (stopsNext_whenTokens whens _ (stopsNext_elseEnd els))
    simp only [List.cons_append] at eS
    have eW := parseWhenLoop_split whens f2 (elseTokens els ++ ["END"]) hwh
      (stopsNext_elseEnd els) (notWhenHead_elseEnd els) (by omega)
    have eE := parseElseOpt_elseEnd f2 els he (by omega)
    rw [assoc, parseCaseF_cons]
    simp only [List.cons_append, List.head?, eS]
    rw [if_pos g.2.2.2.2.2.2.1]
    simp only [eW, eE, consume_end]
    rw [caseParts_some (joinSep " " (t0 :: s2)) (joinSep_cons_ne t0 s2 g.2.2.2.2.2.2.2)
      (whens.map runPair)]
    simp only [List.map_map]
    have hfun : ((fun p : String × String => (joinSep " " (t0 :: s2) ++ " = " ++ p.1, p.2)) ∘
        runPair) = (fun p : List String × List String =>
          (runStr (t0 :: s2) ++ " = " ++ runStr p.1, runStr p.2)) := by
      funext p
      simp [runPair, runStr, Function.comp]
    rw [hfun]
  | none =>
    obtain ⟨⟨w0, v0⟩, ps, rfl⟩ : ∃ p ps, whens = p :: ps := by
      cases whens with
      | nil => exact absurd rfl (hw rfl)
      | cons a b => exact ⟨a, b, rfl⟩
    simp only [List.length_cons] at hf
    have assoc : caseTokens none ((w0, v0) :: ps) els =
        "CASE" :: (whenTokens ((w0, v0) :: ps) ++ (elseTokens els ++ ["END"])) := by
      simp [caseTokens]
    have hhead : (whenTokens ((w0, v0) :: ps) ++ (elseTokens els ++ ["END"])).head? =
        some "WHEN" := by
      simp [whenTokens]
    have eW := parseWhenLoop_split ((w0, v0) :: ps) f2 (elseTokens els ++ ["END"]) hwh
      (stopsNext_elseEnd els) (notWhenHead_elseEnd els)
      (by simp only [List.length_cons]; omega)
    have eE := parseElseOpt_elseEnd f2 els he (by omega)
    rw [assoc, parseCaseF_cons, hhead]
    simp only
    rw [if_neg (by decide : ¬(pyUpper "WHEN" ≠ "WHEN"))]
    simp only [eW, eE, consume_end]
    rw [caseParts_none]

/-- C2: for every well-formed CASE construct whose runs are simple token
runs, the parser emits the same always-true `SWITCH` form, the else-value
last (`BLANK()` when ELSE is absent); with a leading scrutinee `x` every
`WHEN w THEN t` becomes the pair `x = w, t` in source order, and without a
scrutinee (`CASE WHEN ...`) each WHEN content is used directly as the
condition. -/
theorem C2_case_switch_emission (scr : Option (List String))
    (whens : List (List String × List String)) (els : Option (List String))
    (hs : ∀ s, scr = some s → s ≠ [] ∧ plainRun s = true)
    (hw : scr = none → whens ≠ [])
    (hwh : (whens.all fun p => plainRun p.1 && plainRun p.2) = true)
    (he : plainRun (els.getD []) = true) :
    parse_expression (caseTokens scr whens els) =
      .ok ("SWITCH(" ++ joinSep ", " ("TRUE()" ::
        (match scr with
         | some s => pairsFlat (whens.map fun p => (runStr s ++ " = " ++ runStr p.1, runStr p.2))
         | none => pairsFlat (whens.map runPair)) ++ [elseVal els]) ++ ")", []) := by
  have hlen := whenTokens_len_ge whens
  have hL : whens.length + 4 ≤ 4 * (caseTokens scr whens els).length + 7 := by
    simp only [caseTokens, List.length_cons, List.length_append]
    omega
  have step : parse_expression (caseTokens scr whens els) =
      parseCaseF (4 * (caseTokens scr whens els).length + 7) (caseTokens scr whens els) := rfl
  rw [step]
  exact parseCaseF_wf _ scr whens els hs hw hwh he hL

set_option maxRecDepth 100000 in
/-- C2 witness: `CASE [x] WHEN 1 THEN "a" WHEN 2 THEN "b" ELSE "c" END` (with
scrutinee) and a scrutinee-free `CASE WHEN a THEN b END`. -/
theorem C2_case_switch_emission_witness :
    parse_expression ["CASE", "[x]", "WHEN", "1", "THEN", "\"a\"", "WHEN", "2",
        "THEN", "\"b\"", "ELSE", "\"c\"", "END"] =
      .ok ("SWITCH(TRUE(), [x] = 1, \"a\", [x] = 2, \"b\", \"c\")", []) ∧
    parse_expression ["CASE", "WHEN", "a", "THEN", "b", "END"] =
      .ok ("SWITCH(TRUE(), a, b, BLANK())", []) :=
  ⟨(C2_case_switch_emission (some ["[x]"]) [(["1"], ["\"a\""]), (["2"], ["\"b\""])]
      (some ["\"c\""])
      (fun s hs => by cases hs; exact ⟨by decide, by decide⟩) (fun h => by cases h)
      (by decide) (by decide)).trans (by decide),
    (C2_case_switch_emission none [(["a"], ["b"])] none
      (fun s hs => by cases hs) (fun _ => by decide)
      (by decide) (by decide)).trans (by decide)⟩

/-! ## C8: keyword-free runs -/

/-- C8 (amended): on an input that is a single run with no keyword tokens
(and no LOD block, no iterator prefix), the conversion returns the input's
tokens re-joined with single spaces and passed through the normalizer chain
(field qualification, function renames, operator rewrites, whitespace
collapse) — re-joining inserts single spaces between tokens, so the result
is not literally the input otherwise unchanged. -/
theorem C8_tokens_rejoined_amended (e tbl : String)
    (hq : pyStrip (pyReplaceQuotes e) = e)
    (hlod : preprocess_lod e tbl = .ok e)
    (hit : startsWithIter e = false)
    (hp : plainRun (tokenize e) = true) :
    tableau_to_dax e tbl = .ok (normalizeDax tbl (joinSep " " (tokenize e))) := by
  have hparse : parse_expression (tokenize e) = .ok (joinSep " " (tokenize e), []) := by
    have h0 := parseExprF_plain (4 * (tokenize e).length + 7) (tokenize e) [] hp rfl
    rw [List.append_nil] at h0
    exact h0
  simp only [tableau_to_dax, hq, hlod, hit, hparse, if_false, Bool.false_eq_true]

set_option maxRecDepth 100000 in
/-- C8 witness: `SUM([Sales]) > 0` is a keyword-free run; the conversion
re-joins its tokens and qualifies the field reference. -/
theorem C8_tokens_rejoined_amended_witness :
    plainRun (tokenize "SUM([Sales]) > 0") = true ∧
    tableau_to_dax "SUM([Sales]) > 0" "T" = .ok "SUM(T[Sales]) > 0" :=
  ⟨by decide,
    (C8_tokens_rejoined_amended "SUM([Sales]) > 0" "T"
      (by decide) (by decide) (by decide) (by decide)).trans (by decide)⟩

/-! ## C9: single qualification of a bare field reference -/

/-- The character data of a bracketed field string. -/
theorem bracket_data (n : String) : ("[" ++ n ++ "]").data = '[' :: (n.data ++ [']']) := by
  rw [strData_append, strData_append]
  rfl

/-- `pyUpper` maps the character data. -/
theorem pyUpper_data (s : String) : (pyUpper s).data = s.data.map Char.toUpper := rfl

/-- The upper-cased data of a bracketed field string keeps its leading
bracket. -/
theorem bracket_upper_data (n : String) :
    (pyUpper ("[" ++ n ++ "]")).data = '[' :: ((n.data ++ [']']).map Char.toUpper) := by
  rw [pyUpper_data, bracket_data]
  rfl

/-- Two strings whose data start with different characters differ. -/
theorem strNe_of_data_head {s t : String} {a b : Char} {l1 l2 : List Char}
    (hs : s.data = a :: l1) (ht : t.data = b :: l2) (hab : a ≠ b) : s ≠ t := by
  intro h
  subst h
  rw [hs] at ht
  injection ht with h1 _
  exact hab h1

/-- A bracketed field string is a plain (non-keyword) token. -/
theorem plainTok_bracket (n : String) : plainTok ("[" ++ n ++ "]") = true := by
  have hu := bracket_upper_data n
  simp only [plainTok, Bool.and_eq_true, bne_iff_ne, ne_eq, Bool.not_eq_true',
    Bool.or_eq_false_iff, beq_eq_false_iff_ne]
  refine ⟨?_, ⟨⟨⟨⟨⟨⟨?_, ?_⟩, ?_⟩, ?_⟩, ?_⟩, ?_⟩, ?_⟩⟩
  · exact (strNe_empty_iff _).mpr (by rw [bracket_data]; simp)
  all_goals exact strNe_of_data_head hu rfl (by decide)

/-- `pyStripL` leaves a bracketed field's characters unchanged. -/
theorem pyStripL_bracket (l : List Char) :
    pyStripL ('[' :: (l ++ [']'])) = '[' :: (l ++ [']']) := by
  have h1 : ('[' :: (l ++ [']'])).dropWhile pySpaceChar = '[' :: (l ++ [']']) :=
    List.dropWhile_cons_of_neg (by decide)
  have h2 : ('[' :: (l ++ [']'])).reverse = ']' :: (l.reverse ++ ['[']) := by
    simp [List.reverse_cons, List.reverse_append]
  have h3 : (']' :: (l.reverse ++ ['['])).dropWhile pySpaceChar = ']' :: (l.reverse ++ ['[']) :=
    List.dropWhile_cons_of_neg (by decide)
  rw [pyStripL, h1, h2, h3]
  simp [List.reverse_cons, List.reverse_append, List.reverse_reverse]

/-- `strip()` leaves a bracketed field string unchanged. -/
theorem pyStrip_bracket (n : String) :
    pyStrip ("[" ++ n ++ "]") = "[" ++ n ++ "]" := by
  apply String.ext
  show pyStripL (("[" ++ n ++ "]").data) = ("[" ++ n ++ "]").data
  rw [bracket_data]
  exact pyStripL_bracket n.data

/-- The LOD pattern cannot match a string that does not start with `{`. -/
theorem lodMatch_head_not_brace (s : String) (a : Char) (l : List Char)
    (hd : s.data = a :: l) (ha : ciEqChar '\x7b' a = false) : lodMatch s = none := by
  rw [lodMatch, hd]
  simp [mmatch, lodPattern, seqs, litS, mfirst, ciStrip, ha]

/-- A bracketed field string does not start with an iterator name. -/
theorem startsWithIter_bracket (n : String) : startsWithIter ("[" ++ n ++ "]") = false := by
  have hu := bracket_upper_data n
  have h1 : ∀ X : List Char, beginsWith "SUMX(".data ('[' :: X) = false := fun _ => rfl
  have h2 : ∀ X : List Char, beginsWith "AVERAGEX(".data ('[' :: X) = false := fun _ => rfl
  have h3 : ∀ X : List Char, beginsWith "COUNTX(".data ('[' :: X) = false := fun _ => rfl
  have h4 : ∀ X : List Char, beginsWith "MINX(".data ('[' :: X) = false := fun _ => rfl
  have h5 : ∀ X : List Char, beginsWith "MAXX(".data ('[' :: X) = false := fun _ => rfl
  rw [startsWithIter, hu, h1, h2, h3, h4, h5]
  rfl

/-- One-step unfolding of `fieldSplit` at a non-`]` head. -/
theorem fieldSplit_cons_ne (c : Char) (hc : c ≠ ']') (X : List Char) :
    fieldSplit (c :: X) =
      match fieldSplit X with
      | some (i, a) => some (c :: i, a)
      | none =>
        match X with
        | ']' :: a => some ([c], a)
        | _ => none := by
  simp [fieldSplit, hc]

/-- Splitting a bracket body `name]` with no inner `]`. -/
theorem fieldSplit_closed : ∀ (l : List Char), l ≠ [] → ']' ∉ l →
    ∀ after, fieldSplit (l ++ ']' :: after) = some (l, after)
  | [], hne, _, _ => absurd rfl hne
  | c :: cs, _, hb, after => by
    have hc : c ≠ ']' := by
      intro h
      exact hb (by rw [h]; exact List.mem_cons_self _ _)
    cases cs with
    | nil => simp [fieldSplit, hc]
    | cons d ds =>
      have hrec := fieldSplit_closed (d :: ds) (by simp) (fun h => hb (List.mem_cons_of_mem _ h))
        after
      rw [show (c :: d :: ds) ++ ']' :: after = c :: ((d :: ds) ++ ']' :: after) from rfl,
        fieldSplit_cons_ne c hc, hrec]

/-- The `finditer` loop emits nothing while skipping the current token's
characters. -/
theorem tokenizeGo_skip_all : ∀ (l : List Char) (prev : Option Char),
    tokenizeGo l.length prev l = []
  | [], _ => rfl
  | c :: rest, prev => by
    simp only [List.length_cons, tokenizeGo]
    exact tokenizeGo_skip_all rest (some c)

/-- Tokenizing a bare bracketed field yields exactly one FIELD token. -/
theorem tokenize_bracket (n : String) (hne : n.data ≠ []) (hb : ']' ∉ n.data) :
    tokenize ("[" ++ n ++ "]") = ["[" ++ n ++ "]"] := by
  have hfs := fieldSplit_closed n.data hne hb []
  have hkw : findKw kwList ('[' :: (n.data ++ [']'])) = none := rfl
  have hscan : scanTok none ('[' :: (n.data ++ [']'])) = some (n.data.length + 2) := by
    simp [scanTok, matchKwAt, hkw, matchField]
    rw [show n.data ++ [']'] = n.data ++ ']' :: [] from rfl, hfs]
    rfl
  have hlen : ('[' :: (n.data ++ [']'])).length = n.data.length + 2 := by simp
  have htake : ('[' :: (n.data ++ [']'])).take (n.data.length + 2) = '[' :: (n.data ++ [']']) := by
    rw [← hlen]
    exact List.take_length _
  have hskip : tokenizeGo (n.data.length + 2 - 1) (some '[') (n.data ++ [']']) = [] := by
    have h2 : (n.data ++ [']']).length = n.data.length + 2 - 1 := by simp
    rw [← h2]
    exact tokenizeGo_skip_all _ _
  have hmk : String.mk ('[' :: (n.data ++ [']'])) = "[" ++ n ++ "]" := by
    apply String.ext
    rw [bracket_data]
  rw [tokenize, bracket_data, tokenizeGo, hscan]
  simp only [htake, hskip, hmk]

/-- The qualification scanner emits nothing while skipping the matched
field's characters. -/
theorem qualifyGo_skip_all : ∀ (l : List Char) (tbl : List Char),
    qualifyGo tbl l.length l = []
  | [], _ => rfl
  | c :: rest, tbl => by
    simp only [List.length_cons, qualifyGo]
    exact qualifyGo_skip_all rest tbl

/-- Qualifying a bare bracketed field prefixes the table name exactly
once. -/
theorem qualifyFields_bracket (tbl n : String) (hne : n.data ≠ []) (hb : ']' ∉ n.data) :
    qualifyFields tbl ("[" ++ n ++ "]") = tbl ++ "[" ++ n ++ "]" := by
  have hfs := fieldSplit_closed n.data hne hb []
  apply String.ext
  show qualifyGo tbl.data 0 (("[" ++ n ++ "]").data) = (tbl ++ "[" ++ n ++ "]").data
  have hskip : qualifyGo tbl.data (n.data.length + 1) (n.data ++ ']' :: []) = [] := by
    have h2 : (n.data ++ ']' :: []).length = n.data.length + 1 := by simp
    rw [← h2]
    exact qualifyGo_skip_all _ _
  rw [bracket_data, qualifyGo]
  rw [show n.data ++ [']'] = n.data ++ ']' :: [] from rfl, hfs]
  simp only [if_true, hskip]
  rw [strData_append, strData_append, strData_append]
  simp

/-- C9 (amended): field qualification runs exactly once per conversion.  A
bare bracketed field `[n]` (non-empty, no inner bracket; with the
function-rename, operator and whitespace passes leaving the qualified result
unchanged) converts to exactly `<table>[n]` — a single prefix.  Re-qualifying
already-qualified input is *not* prevented: an input that already contains
`<table>[n]` gains a second prefix (see the counterexample). -/
theorem C9_single_qualification_amended (tbl n : String)
    (hne : n.data ≠ []) (hb : ']' ∉ n.data)
    (hq : pyReplaceQuotes ("[" ++ n ++ "]") = "[" ++ n ++ "]")
    (hpost : pyStrip (collapseWs (wordSub "OR" "||" (wordSub "AND" "&&"
      (fnSub "AVG" "AVERAGE(" (fnSub "COUNTD" "DISTINCTCOUNT(" (fnSub "ZN" "COALESCE("
        (fnSub "IFNULL" "COALESCE(" (fnSub "ISNULL" "ISBLANK("
          (tbl ++ "[" ++ n ++ "]"))))))))) = tbl ++ "[" ++ n ++ "]") :
    tableau_to_dax ("[" ++ n ++ "]") tbl = .ok (tbl ++ "[" ++ n ++ "]") := by
  have hstrip := pyStrip_bracket n
  have hlod : preprocess_lod ("[" ++ n ++ "]") tbl = .ok ("[" ++ n ++ "]") := by
    rw [preprocess_lod, hstrip,
      lodMatch_head_not_brace _ '[' (n.data ++ [']']) (bracket_data n) (by decide)]
  have htok := tokenize_bracket n hne hb
  have hparse : parse_expression (tokenize ("[" ++ n ++ "]")) =
      .ok ("[" ++ n ++ "]", []) := by
    rw [htok]
    have h0 := parseExprF_plain (4 * (["[" ++ n ++ "]"] : List String).length + 7)
      ["[" ++ n ++ "]"] [] (by simp [plainRun, plainTok_bracket n]) rfl
    rw [List.append_nil] at h0
    exact h0
  rw [tableau_to_dax, hq, hstrip, hlod]
  simp only [startsWithIter_bracket n, Bool.false_eq_true, if_false, hparse]
  rw [normalizeDax, qualifyFields_bracket tbl n hne hb]
  rw [hpost]

set_option maxRecDepth 100000 in
/-- C9 witness: `[Sales]` with default table `T` converts to `T[Sales]`,
with a single prefix. -/
theorem C9_single_qualification_amended_witness :
    tableau_to_dax "[Sales]" "T" = .ok "T[Sales]" := by
  have h := C9_single_qualification_amended "T" "Sales"
    (by decide) (by decide) (by decide) (by decide)
  exact (by decide : tableau_to_dax "[Sales]" "T" =
    tableau_to_dax ("[" ++ "Sales" ++ "]") "T").trans (h.trans (by decide))

/-! ## C10: the substitutions act textually, including inside string
literals -/

/-- Dropping at most the first list's length distributes over an append. -/
theorem drop_append_le {α : Type} : ∀ (l1 l2 : List α) (k : Nat), k ≤ l1.length →
    (l1 ++ l2).drop k = l1.drop k ++ l2
  | _, _, 0, _ => rfl
  | [], _, k + 1, h => by simp at h
  | _ :: l1, l2, k + 1, h => by
    show (l1 ++ l2).drop k = l1.drop k ++ l2
    exact drop_append_le l1 l2 k (by simp only [List.length_cons] at h; omega)

/-- Appending a quote does not change the trailing word-boundary test. -/
theorem headNonWord_append_q (l : List Char) : headNonWord (l ++ ['"']) = headNonWord l := by
  cases l with
  | nil => decide
  | cons c rest => rfl

/-- Appending a quote cannot affect a case-insensitive prefix test for a
pattern containing no quote. -/
theorem ciStartsWith_append_q : ∀ (w l : List Char), (∀ x ∈ w, ciEqChar x '"' = false) →
    ciStartsWith w (l ++ ['"']) = ciStartsWith w l
  | [], _, _ => rfl
  | c :: cs, [], hw => by
    have hc : ciEqChar c '"' = false := hw c (List.mem_cons_self _ _)
    simp [ciStartsWith, ciStrip, hc]
  | c :: cs, x :: xs, hw => by
    have hrec := ciStartsWith_append_q cs xs (fun y hy => hw y (List.mem_cons_of_mem _ hy))
    by_cases hcx : ciEqChar c x = true
    · simpa [ciStartsWith, ciStrip, hcx] using hrec
    · simp [ciStartsWith, ciStrip, hcx]

/-- A successful case-insensitive strip removes exactly the pattern
length. -/
theorem ciStrip_length : ∀ (w l r : List Char), ciStrip w l = some r →
    l.length = w.length + r.length
  | [], l, r, h => by
    simp [ciStrip] at h
    subst h
    simp
  | _ :: _, [], _, h => by simp [ciStrip] at h
  | c :: cs, x :: xs, r, h => by
    by_cases hcx : ciEqChar c x = true
    · simp only [ciStrip, if_pos hcx] at h
      have hr := ciStrip_length cs xs r h
      simp only [List.length_cons]
      omega
    · simp [ciStrip, hcx] at h

/-- A successful case-insensitive prefix test bounds the pattern length. -/
theorem ciStartsWith_le (w l : List Char) (h : ciStartsWith w l = true) :
    w.length ≤ l.length := by
  cases hs : ciStrip w l with
  | none => simp [ciStartsWith, hs] at h
  | some r =>
    have hr := ciStrip_length w l r hs
    omega

/-- The substitution scanner inspects the previous character only through
the word-boundary test. -/
theorem wordSubGo_prev_congr (w repl : List Char) (skip : Nat) (p1 p2 : Option Char)
    (hp : prevNonWord p1 = prevNonWord p2) :
    ∀ s : List Char, wordSubGo w repl skip p1 s = wordSubGo w repl skip p2 s := by
  intro s
  cases s with
  | nil => cases skip <;> rfl
  | cons c rest =>
    cases skip with
    | zero => simp only [wordSubGo, hp]
    | succ k => rfl

/-- Appending a closing quote to the text does not change the whole-word
scanner's output on the original text, for a quote-free pattern. -/
theorem wordSubGo_append_q (w0 : Char) (ws repl : List Char)
    (hw : ∀ x ∈ w0 :: ws, ciEqChar x '"' = false) :
    ∀ (s : List Char) (skip : Nat) (prev : Option Char), skip ≤ s.length →
    wordSubGo (w0 :: ws) repl skip prev (s ++ ['"']) =
      wordSubGo (w0 :: ws) repl skip prev s ++ ['"']
  | [], skip, prev, hsk => by
    have hz : skip = 0 := Nat.le_zero.mp (by simpa using hsk)
    subst hz
    have hc : ciEqChar w0 '"' = false := hw w0 (List.mem_cons_self _ _)
    simp [wordSubGo, ciStartsWith, ciStrip, hc]
  | c :: rest, skip, prev, hsk => by
    cases skip with
    | succ k =>
      have hrec := wordSubGo_append_q w0 ws repl hw rest k (some c)
        (by simp only [List.length_cons] at hsk; omega)
      simpa [wordSubGo] using hrec
    | zero =>
      have hci := ciStartsWith_append_q (w0 :: ws) (c :: rest) hw
      simp only [List.cons_append] at hci
      have hrec0 := wordSubGo_append_q w0 ws repl hw rest 0 (some c) (Nat.zero_le _)
      by_cases hC : ciStartsWith (w0 :: ws) (c :: rest) = true
      · have hlen : (w0 :: ws).length ≤ (c :: rest).length := ciStartsWith_le _ _ hC
        have hdrop : ((c :: rest) ++ ['"']).drop (w0 :: ws).length =
            (c :: rest).drop (w0 :: ws).length ++ ['"'] :=
          drop_append_le (c :: rest) ['"'] (w0 :: ws).length hlen
        simp only [List.cons_append] at hdrop
        have hhead := headNonWord_append_q ((c :: rest).drop (w0 :: ws).length)
        have hrecM := wordSubGo_append_q w0 ws repl hw rest ((w0 :: ws).length - 1) (some c)
          (by simp only [List.length_cons] at hlen ⊢; omega)
        simp only [List.cons_append, wordSubGo, List.append_eq, hci, hdrop, hhead]
        cases hcd : prevNonWord prev && ciStartsWith (w0 :: ws) (c :: rest) &&
            headNonWord ((c :: rest).drop (w0 :: ws).length) with
        | true => rw [if_pos rfl, if_pos rfl, hrecM, List.append_assoc]
        | false =>
          rw [if_neg (by decide), if_neg (by decide), hrec0]
          rfl
      · simp only [Bool.not_eq_true] at hC
        simp only [List.cons_append, wordSubGo, List.append_eq, hci, hC, Bool.and_false,
          Bool.false_and, Bool.false_eq_true, if_false]
        rw [hrec0]

/-- A whole-word substitution whose pattern is nonempty and quote-free acts
identically inside a double-quoted literal. -/
theorem wordSub_quoted (w repl s : String) (w0 : Char) (ws : List Char)
    (hwd : w.data = w0 :: ws) (hw : ∀ x ∈ w0 :: ws, ciEqChar x '"' = false) :
    wordSub w repl ("\"" ++ s ++ "\"") = "\"" ++ wordSub w repl s ++ "\"" := by
  have hdq : ("\"" ++ s ++ "\"").data = '"' :: (s.data ++ ['"']) := by
    rw [strData_append, strData_append]
    rfl
  have hrhs : ("\"" ++ wordSub w repl s ++ "\"").data =
      '"' :: (wordSubGo w.data repl.data 0 none s.data ++ ['"']) := by
    rw [strData_append, strData_append]
    rfl
  have hc : ciEqChar w0 '"' = false := hw w0 (List.mem_cons_self _ _)
  apply String.ext
  show wordSubGo w.data repl.data 0 none (("\"" ++ s ++ "\"").data) =
    ("\"" ++ wordSub w repl s ++ "\"").data
  rw [hdq, hrhs, hwd]
  have hns : ciStartsWith (w0 :: ws) ('"' :: (s.data ++ ['"'])) = false := by
    simp [ciStartsWith, ciStrip, hc]
  have hstep : wordSubGo (w0 :: ws) repl.data 0 none ('"' :: (s.data ++ ['"'])) =
      '"' :: wordSubGo (w0 :: ws) repl.data 0 (some '"') (s.data ++ ['"']) := by
    simp [wordSubGo, hns]
  rw [hstep,
    wordSubGo_prev_congr (w0 :: ws) repl.data 0 (some '"') none (by decide) (s.data ++ ['"']),
    wordSubGo_append_q w0 ws repl.data hw s.data 0 none (Nat.zero_le _)]

/-- A successful `fieldSplit` decomposes its input around the closing
bracket. -/
theorem fieldSplit_parts : ∀ (s i a : List Char), fieldSplit s = some (i, a) →
    s = i ++ ']' :: a
  | [], i, a, h => by simp [fieldSplit] at h
  | c :: rest, i, a, h => by
    by_cases hc : c = ']'
    · rw [hc] at h
      simp [fieldSplit] at h
    · rw [fieldSplit_cons_ne c hc] at h
      cases hfs : fieldSplit rest with
      | some p =>
        obtain ⟨i2, a2⟩ := p
        rw [hfs] at h
        have h2 : some (c :: i2, a2) = some (i, a) := h
        injection h2 with h3
        injection h3 with h4 h5
        subst h4
        subst h5
        have hr := fieldSplit_parts rest i2 a2 hfs
        rw [hr]
        rfl
      | none =>
        rw [hfs] at h
        cases rest with
        | nil => simp at h
        | cons d ds =>
          by_cases hd : d = ']'
          · subst hd
            have h2 : some ([c], ds) = some (i, a) := h
            injection h2 with h3
            injection h3 with h4 h5
            subst h4
            subst h5
            rfl
          · have h2 : (match d :: ds with
                | ']' :: a => some ([c], a)
                | _ => none) = some (i, a) := h
            split at h2
            · rename_i a2 heq
              injection heq with h1 h3
              exact absurd h1 hd
            · exact Option.noConfusion h2

/-- A successful `fieldSplit` is preserved by appending text after the
closing bracket. -/
theorem fieldSplit_some_append : ∀ (s i a t : List Char), fieldSplit s = some (i, a) →
    fieldSplit (s ++ t) = some (i, a ++ t)
  | [], i, a, t, h => by simp [fieldSplit] at h
  | c :: rest, i, a, t, h => by
    by_cases hc : c = ']'
    · rw [hc] at h
      simp [fieldSplit] at h
    · rw [fieldSplit_cons_ne c hc] at h
      rw [show (c :: rest) ++ t = c :: (rest ++ t) from rfl, fieldSplit_cons_ne c hc]
      cases hfs : fieldSplit rest with
      | some p =>
        obtain ⟨i2, a2⟩ := p
        rw [hfs] at h
        have h2 : some (c :: i2, a2) = some (i, a) := h
        injection h2 with h3
        injection h3 with h4 h5
        subst h4
        subst h5
        rw [fieldSplit_some_append rest i2 a2 t hfs]
      | none =>
        rw [hfs] at h
        cases rest with
        | nil => simp at h
        | cons d ds =>
          by_cases hd : d = ']'
          · subst hd
            have h2 : some ([c], ds) = some (i, a) := h
            injection h2 with h3
            injection h3 with h4 h5
            subst h4
            subst h5
            rw [show (']' :: ds) ++ t = ']' :: (ds ++ t) from rfl]
            simp [fieldSplit]
          · have h2 : (match d :: ds with
                | ']' :: a => some ([c], a)
                | _ => none) = some (i, a) := h
            split at h2
            · rename_i a2 heq
              injection heq with h1 h3
              exact absurd h1 hd
            · exact Option.noConfusion h2

/-- A failing `fieldSplit` still fails after appending a quote. -/
theorem fieldSplit_none_append_q : ∀ (s : List Char), fieldSplit s = none →
    fieldSplit (s ++ ['"']) = none
  | [], _ => rfl
  | c :: rest, h => by
    by_cases hc : c = ']'
    · subst hc
      simp [fieldSplit]
    · rw [fieldSplit_cons_ne c hc] at h
      rw [show (c :: rest) ++ ['"'] = c :: (rest ++ ['"']) from rfl, fieldSplit_cons_ne c hc]
      cases hfs : fieldSplit rest with
      | some p =>
        obtain ⟨i2, a2⟩ := p
        rw [hfs] at h
        have h2 : some (c :: i2, a2) = (none : Option (List Char × List Char)) := h
        exact Option.noConfusion h2
      | none =>
        rw [hfs] at h
        rw [fieldSplit_none_append_q rest hfs]
        cases rest with
        | nil => rfl
        | cons d ds =>
          by_cases hd : d = ']'
          · subst hd
            have h2 : some ([c], ds) = (none : Option (List Char × List Char)) := h
            exact Option.noConfusion h2
          · rw [show (d :: ds) ++ ['"'] = d :: (ds ++ ['"']) from rfl]
            show (match d :: (ds ++ ['"']) with
              | ']' :: a => some ([c], a)
              | _ => none) = none
            split
            · rename_i a2 heq
              injection heq with h1 h2
              exact absurd h1 hd
            · rfl

/-- Appending a closing quote to the text does not change the field
qualifier's output on the original text. -/
theorem qualifyGo_append_q (tbl : List Char) : ∀ (s : List Char) (skip : Nat),
    skip ≤ s.length →
    qualifyGo tbl skip (s ++ ['"']) = qualifyGo tbl skip s ++ ['"']
  | [], skip, hsk => by
    have hz : skip = 0 := Nat.le_zero.mp (by simpa using hsk)
    subst hz
    simp [qualifyGo, (show ('"' : Char) ≠ '[' by decide)]
  | c :: rest, skip, hsk => by
    cases skip with
    | succ k =>
      have hrec := qualifyGo_append_q tbl rest k
        (by simp only [List.length_cons] at hsk; omega)
      simpa [qualifyGo] using hrec
    | zero =>
      by_cases hc : c = '['
      · subst hc
        cases hfs : fieldSplit rest with
        | some p =>
          obtain ⟨i, a⟩ := p
          have happ := fieldSplit_some_append rest i a ['"'] hfs
          have hparts := fieldSplit_parts rest i a hfs
          have hlen : i.length + 1 ≤ rest.length := by
            rw [hparts]
            simp [List.length_append]
          have hrec := qualifyGo_append_q tbl rest (i.length + 1) hlen
          simp only [List.cons_append, qualifyGo, List.append_eq, hfs, happ, if_true]
          simp [hrec, List.append_assoc]
        | none =>
          have hnone := fieldSplit_none_append_q rest hfs
          have hrec := qualifyGo_append_q tbl rest 0 (Nat.zero_le _)
          simp only [List.cons_append, qualifyGo, List.append_eq, hfs, hnone, if_true]
          rw [hrec]
      · have hrec := qualifyGo_append_q tbl rest 0 (Nat.zero_le _)
        simp only [List.cons_append, qualifyGo, List.append_eq, if_neg hc]
        rw [hrec]

/-- Field qualification acts identically inside a double-quoted literal. -/
theorem qualifyFields_quoted (tbl s : String) :
    qualifyFields tbl ("\"" ++ s ++ "\"") = "\"" ++ qualifyFields tbl s ++ "\"" := by
  have hdq : ("\"" ++ s ++ "\"").data = '"' :: (s.data ++ ['"']) := by
    rw [strData_append, strData_append]
    rfl
  have hrhs : ("\"" ++ qualifyFields tbl s ++ "\"").data =
      '"' :: (qualifyGo tbl.data 0 s.data ++ ['"']) := by
    rw [strData_append, strData_append]
    rfl
  apply String.ext
  show qualifyGo tbl.data 0 (("\"" ++ s ++ "\"").data) =
    ("\"" ++ qualifyFields tbl s ++ "\"").data
  rw [hdq, hrhs]
  have hstep : qualifyGo tbl.data 0 ('"' :: (s.data ++ ['"'])) =
      '"' :: qualifyGo tbl.data 0 (s.data ++ ['"']) := by
    simp [qualifyGo, (show ('"' : Char) ≠ '[' by decide)]
  rw [hstep, qualifyGo_append_q tbl.data s.data 0 (Nat.zero_le _)]

set_option maxRecDepth 100000 in
/-- C10: the Normalizer's substitutions are purely textual and act inside
double-quoted string literals exactly as outside them: wrapping any text in
double quotes commutes with field qualification and with the whole-word
`AND` and `OR` rewrites; and, end to end, converting
`IF [A] = "x AND y" THEN 1 END` with table `T` rewrites the `AND` inside
the string literal to `&&`. -/
theorem C10_rewrites_inside_string_literals :
    (∀ tbl s : String, qualifyFields tbl ("\"" ++ s ++ "\"") =
      "\"" ++ qualifyFields tbl s ++ "\"") ∧
    (∀ s : String, wordSub "AND" "&&" ("\"" ++ s ++ "\"") =
      "\"" ++ wordSub "AND" "&&" s ++ "\"") ∧
    (∀ s : String, wordSub "OR" "||" ("\"" ++ s ++ "\"") =
      "\"" ++ wordSub "OR" "||" s ++ "\"") ∧
    tableau_to_dax "IF [A] = \"x AND y\" THEN 1 END" "T" =
      .ok "SWITCH(TRUE(), T[A] = \"x && y\", 1, BLANK())" := by
  refine ⟨fun tbl s => qualifyFields_quoted tbl s, fun s => ?_, fun s => ?_, ?_⟩
  · exact wordSub_quoted "AND" "&&" s 'A' ['N', 'D'] rfl (by decide)
  · exact wordSub_quoted "OR" "||" s 'O' ['R'] rfl (by decide)
  · decide

end TableauToDax
